import Mathlib

/-!
# Alternating Bit Protocol simulator (`ABPSimulator.cpp`)

A shallow embedding of `ABPSimulator::send` and `ABPSimulator::simulate`.

Modelling conventions:
* `unsigned int` values are natural numbers, reduced modulo `2 ^ 32` wherever the
  C++ arithmetic can wrap; the `int` constant `DATA_FRAME_LENGTH` is an integer
  obtained by the two's complement conversion `toInt32`.
* `double` values (all simulated times, the bit error rate, the throughput) are exact
  rationals: rounding of floating point arithmetic is not modelled. The statements that
  hold for all parameters and depend on a race between two computed times carry the
  predicates `WholeMs` and `ExactRound`: all delays are whole numbers of milliseconds and
  every operand and result of the additions of lines 70 and 107 is a whole number below
  `2 ^ 53`, so that the `double` operations of the run do not round.
* The C library generator is a stream `rand : Nat → Nat` (the value returned by the
  i-th call of `rand()`), together with the library constant `RAND_MAX`; the number
  of calls made so far is part of the state.
* A quotient by zero (channel capacity 0, elapsed time 0) is 0 in the rationals, where
  the C++ code computes an infinity or a NaN; the concrete runs below never divide by 0.
* The outer `while` loop of `simulate` may run forever, so it is iterated with fuel;
  the inner drain loop consumes one queue element per pass and is structurally
  recursive on the queue.
-/

namespace ABP

/-- Wrap-around modulus of `unsigned int`. -/
def UINT_MOD : Nat := 2 ^ 32

/-- Conversion of an `unsigned int` value to `int` (two's complement). -/
def toInt32 (n : Nat) : Int :=
  if n % UINT_MOD < 2 ^ 31 then ((n % UINT_MOD : Nat) : Int)
  else ((n % UINT_MOD : Nat) : Int) - 2 ^ 32

/-- Conversion of an `int` value to `unsigned int`. -/
def toUInt32 (i : Int) : Nat := (i % 2 ^ 32).toNat

/-- The configuration stored by the constructor (lines 23-33). -/
structure ABPSimulator where
  ackNak : Bool
  headerLength : Nat
  packetLength : Nat
  timeoutTime : ℚ
  channelCapacity : Nat
  propagationDelay : ℚ
  bitErrorRate : ℚ
  deriving DecidableEq

/-- An acknowledgment scheduled to reach the sender. -/
structure ACKEvent where
  rn : Nat
  error : Bool
  time : ℚ
  deriving DecidableEq

/-- The pseudo random generator of the C library: `RAND_MAX` and the values returned
by the successive calls of `rand()`. -/
structure RandSource where
  RAND_MAX : Nat
  rand : Nat → Nat

/-- Every value returned by `rand()` lies in `0 .. RAND_MAX`, and `RAND_MAX` is positive. -/
def RandSource.Valid (rs : RandSource) : Prop :=
  0 < rs.RAND_MAX ∧ ∀ i, rs.rand i ≤ rs.RAND_MAX

/-- The mutable state of a run of `simulate`: the sender and receiver members of the
object, the locals `senderCurrentTime`, `successPacketsDone` and `ackEvents`
(head of the queue first), and the number of calls of `rand()` made so far. -/
structure SimState where
  sn : Nat
  nextExpectedAck : Nat
  nextExpectedFrame : Nat
  senderCurrentTime : ℚ
  successPacketsDone : Nat
  ackEvents : List ACKEvent
  randCalls : Nat
  deriving DecidableEq

/-- The test `((double) rand()) / RAND_MAX < bitErrorRate` on the call number `pos`. -/
def bitError (ber : ℚ) (rs : RandSource) (pos : Nat) : Bool :=
  decide (((rs.rand pos : ℚ) / (rs.RAND_MAX : ℚ)) < ber)

/-- The per-bit loops of `send` (lines 40-47 and 58-65) with `n` passes left, `pos`
calls of `rand()` made and `errorBits` errors counted. The first component is `none`
when the loop returns `NULL` (fifth error), otherwise the final error count; the second
is the number of calls of `rand()` made when the loop is left. -/
def errorLoop (ber : ℚ) (rs : RandSource) : Nat → Nat → Nat → Option Nat × Nat
  | 0, pos, errorBits => (some errorBits, pos)
  | n + 1, pos, errorBits =>
    if bitError ber rs pos then
      if errorBits + 1 = 5 then (none, pos + 1)
      else errorLoop ber rs n (pos + 1) (errorBits + 1)
    else errorLoop ber rs n (pos + 1) errorBits

/-- The delay added to `currentTime` on line 70. -/
def ackDelay (p : ABPSimulator) (dataFrameLength : Nat) : ℚ :=
  1000 * (((dataFrameLength + p.headerLength) % UINT_MOD : Nat) : ℚ) / (p.channelCapacity : ℚ)
    + 2 * p.propagationDelay

/-- `ABPSimulator::send` (lines 35-73): the returned event (`none` for `NULL`) and the
state after the call (only `nextExpectedFrame` and the generator position change). -/
def ABPSimulator.send (p : ABPSimulator) (rs : RandSource) (s : SimState)
    (currentTime : ℚ) (sn dataFrameLength : Nat) : Option ACKEvent × SimState :=
  match errorLoop p.bitErrorRate rs dataFrameLength s.randCalls 0 with
  | (none, pos) => (none, { s with randCalls := pos })
  | (some dataErrors, pos) =>
    let nef :=
      if dataErrors = 0 ∧ s.nextExpectedFrame = sn then Nat.xor s.nextExpectedFrame 1
      else s.nextExpectedFrame
    match errorLoop p.bitErrorRate rs p.headerLength pos 0 with
    | (none, pos2) => (none, { s with nextExpectedFrame := nef, randCalls := pos2 })
    | (some ackErrors, pos2) =>
      (some { rn := nef, error := decide (0 < ackErrors),
              time := currentTime + ackDelay p dataFrameLength },
       { s with nextExpectedFrame := nef, randCalls := pos2 })

/-- The constant `DATA_FRAME_LENGTH` of line 89 (an `int`). -/
def ABPSimulator.DATA_FRAME_LENGTH (p : ABPSimulator) : Int :=
  toInt32 ((p.headerLength + p.packetLength) % UINT_MOD)

/-- The constant `DATA_FRAME_TRANSMISSION_DELAY` of line 90. -/
def ABPSimulator.DATA_FRAME_TRANSMISSION_DELAY (p : ABPSimulator) : ℚ :=
  1000 * ((p.DATA_FRAME_LENGTH : Int) : ℚ) / (p.channelCapacity : ℚ)

/-- The state after the initialisation of lines 93-104. -/
def initState : SimState :=
  { sn := 0, nextExpectedAck := 1, nextExpectedFrame := 0, senderCurrentTime := 0,
    successPacketsDone := 0, ackEvents := [], randCalls := 0 }

/-- The value given to `timeoutEvent->time` on line 107. -/
def ABPSimulator.timeoutEventTime (p : ABPSimulator) (s : SimState) : ℚ :=
  s.senderCurrentTime + p.DATA_FRAME_TRANSMISSION_DELAY + p.timeoutTime

/-- Lines 109-112: call `send` and push the event, if any, at the tail of the queue. -/
def ABPSimulator.sendAndPush (p : ABPSimulator) (rs : RandSource) (s : SimState) : SimState :=
  match p.send rs s s.senderCurrentTime s.sn (toUInt32 p.DATA_FRAME_LENGTH) with
  | (some e, s1) => { s1 with ackEvents := s1.ackEvents ++ [e] }
  | (none, s1) => s1

/-- The test of line 129 on the head `e` of the queue. -/
def accepts (e : ACKEvent) (s : SimState) : Bool :=
  (e.rn == s.nextExpectedAck) && !e.error

/-- Lines 130-132: toggle `sn` and `nextExpectedAck`, count one more success. -/
def advanceSender (s : SimState) : SimState :=
  { s with sn := Nat.xor s.sn 1, nextExpectedAck := Nat.xor s.nextExpectedAck 1,
           successPacketsDone := (s.successPacketsDone + 1) % UINT_MOD }

/-- One pass through the body of the inner `while` loop (lines 121-151) when the queue
is `e :: rest`. The flag tells whether the loop is left through a `break`. -/
def ABPSimulator.drainBody (p : ABPSimulator) (deadline : ℚ) (e : ACKEvent)
    (rest : List ACKEvent) (s : SimState) : SimState × Bool :=
  if e.time ≥ deadline then
    ({ s with senderCurrentTime := deadline }, true)
  else
    let s1 : SimState := if accepts e s then advanceSender s else s
    let sendNextPacket := accepts e s || p.ackNak
    let s2 : SimState := { s1 with senderCurrentTime := e.time, ackEvents := rest }
    if sendNextPacket then (s2, true)
    else if rest.isEmpty then ({ s2 with senderCurrentTime := deadline }, false)
    else (s2, false)

/-- The inner `while (!ackEvents->empty())` loop (lines 120-152); the list argument is
the queue of the state. -/
def ABPSimulator.drainLoop (p : ABPSimulator) (deadline : ℚ) :
    List ACKEvent → SimState → SimState
  | [], s => s
  | e :: rest, s =>
    match p.drainBody deadline e rest s with
    | (s1, true) => s1
    | (s1, false) => p.drainLoop deadline rest s1

/-- The states at the end of each pass of the inner loop, in order. -/
def ABPSimulator.drainTrace (p : ABPSimulator) (deadline : ℚ) :
    List ACKEvent → SimState → List SimState
  | [], _ => []
  | e :: rest, s =>
    match p.drainBody deadline e rest s with
    | (s1, true) => [s1]
    | (s1, false) => s1 :: p.drainTrace deadline rest s1

/-- The test of line 115: the queue is empty or its head is not before the deadline. -/
def timesOut (deadline : ℚ) (s : SimState) : Bool :=
  match s.ackEvents with
  | [] => true
  | e :: _ => decide (e.time ≥ deadline)

/-- Lines 115-153, from the state reached after `sendAndPush`. -/
def ABPSimulator.race (p : ABPSimulator) (deadline : ℚ) (s1 : SimState) : SimState :=
  if timesOut deadline s1 then { s1 with senderCurrentTime := deadline }
  else p.drainLoop deadline s1.ackEvents s1

/-- One pass through the body of the main loop (lines 107-153). -/
def ABPSimulator.round (p : ABPSimulator) (rs : RandSource) (s : SimState) : SimState :=
  p.race (p.timeoutEventTime s) (p.sendAndPush rs s)

/-- The states a pass of the main loop goes through: after the call of `send` and the
push, then either after the timeout branch or after each pass of the inner loop. -/
def ABPSimulator.roundTrace (p : ABPSimulator) (rs : RandSource) (s : SimState) :
    List SimState :=
  let deadline := p.timeoutEventTime s
  let s1 := p.sendAndPush rs s
  if timesOut deadline s1 then [s1, { s1 with senderCurrentTime := deadline }]
  else s1 :: p.drainTrace deadline s1.ackEvents s1

/-- The state after `k` evaluations of the main loop condition followed, where the
condition holds, by the loop body; once the loop is left the state stays. -/
def ABPSimulator.loopState (p : ABPSimulator) (rs : RandSource) (successPackets : Nat) :
    Nat → SimState
  | 0 => initState
  | k + 1 =>
    let s := p.loopState rs successPackets k
    if s.successPacketsDone < successPackets then p.round rs s else s

/-- The states `simulate` goes through: the states at the loop condition and, for each
pass that is run, the states inside it. -/
def ABPSimulator.Reachable (p : ABPSimulator) (rs : RandSource) (successPackets : Nat)
    (s : SimState) : Prop :=
  ∃ k, s = p.loopState rs successPackets k ∨
    ((p.loopState rs successPackets k).successPacketsDone < successPackets ∧
      s ∈ p.roundTrace rs (p.loopState rs successPackets k))

/-- The main loop of `simulate` (line 106) run with fuel from state `s`; `none` when
the fuel runs out before the loop is left. The second component counts the passes. -/
def ABPSimulator.mainLoop (p : ABPSimulator) (rs : RandSource) (successPackets : Nat) :
    Nat → SimState → Option (SimState × Nat)
  | 0, s => if s.successPacketsDone < successPackets then none else some (s, 0)
  | fuel + 1, s =>
    if s.successPacketsDone < successPackets then
      (p.mainLoop rs successPackets fuel (p.round rs s)).map (fun r => (r.1, r.2 + 1))
    else some (s, 0)

/-- Lines 162-163: the throughput computed from the final state. -/
def ABPSimulator.throughput (p : ABPSimulator) (s : SimState) : ℚ :=
  let totalBitsSent : Nat := (s.successPacketsDone * p.packetLength) % UINT_MOD
  (totalBitsSent : ℚ) / (s.senderCurrentTime / 1000)

/-- `ABPSimulator::simulate` (lines 75-169) with fuel: the returned throughput. -/
def ABPSimulator.simulate (p : ABPSimulator) (rs : RandSource) (successPackets fuel : Nat) :
    Option ℚ :=
  (p.mainLoop rs successPackets fuel initState).map (fun r => p.throughput r.1)

/-- The parameters of the concrete scenario: 8 header bits, 80 packet bits, 1000 bps,
5 ms propagation delay, 1000 ms timeout, no bit errors, plain acknowledgments. -/
def scenarioParams : ABPSimulator :=
  { ackNak := false, headerLength := 8, packetLength := 80, timeoutTime := 1000,
    channelCapacity := 1000, propagationDelay := 5, bitErrorRate := 0 }

/-- The concrete scenario with the timeout set to 0 ms: the acknowledgment (106 ms after
the start of the pass) arrives after the timeout (88 ms). -/
def shortTimeoutParams : ABPSimulator := { scenarioParams with timeoutTime := 0 }

/-- A configuration whose data frame has `2 ^ 31` bits (8 header bits and 2147483640
packet bits) on a 1 Gbps channel, 5 ms propagation delay, 1000 ms timeout, no bit errors:
the `int` constant `DATA_FRAME_LENGTH` is negative. -/
def overflowParams : ABPSimulator :=
  { ackNak := false, headerLength := 8, packetLength := 2147483640, timeoutTime := 1000,
    channelCapacity := 1000000000, propagationDelay := 5, bitErrorRate := 0 }

/-- The concrete scenario with bit error rate 1 (data frames of 88 bits). -/
def lossParams : ABPSimulator := { scenarioParams with bitErrorRate := 1 }

/-- The configuration `overflowParams` with bit error rate 1. -/
def lossOverflowParams : ABPSimulator := { overflowParams with bitErrorRate := 1 }

/-- A configuration in which the acknowledgment (4 ms after the start of a pass) arrives
after the timeout (3 ms): 1 header bit, 1 packet bit, 1000 bps, 0.5 ms propagation delay,
1 ms timeout, bit error rate 1/2. -/
def lateAckParams (ackNak : Bool) : ABPSimulator :=
  { ackNak := ackNak, headerLength := 1, packetLength := 1, timeoutTime := 1,
    channelCapacity := 1000, propagationDelay := 1 / 2, bitErrorRate := 1 / 2 }

/-- The configuration `lateAckParams` with a timeout of 10 ms: the acknowledgment is ahead
of the timeout. -/
def earlyAckParams : ABPSimulator := { lateAckParams false with timeoutTime := 10 }

/-- A generator whose calls number 0 and 12 return 0 (a bit error at rate 1/2) and whose
other calls return `RAND_MAX`. -/
def rsTwoErrors : RandSource :=
  { RAND_MAX := 32767, rand := fun i => if i = 0 ∨ i = 12 then 0 else 32767 }

/-- A generator whose every call returns `RAND_MAX` (32767). -/
def rsMax : RandSource := { RAND_MAX := 32767, rand := fun _ => 32767 }

/-- A generator whose every call returns 0. -/
def rsZero : RandSource := { RAND_MAX := 32767, rand := fun _ => 0 }

/-- The concrete scenario with packets of 65536 bits. -/
def bigPacketParams : ABPSimulator := { scenarioParams with packetLength := 65536 }

/-- The constructor `ABPSimulator::ABPSimulator` (lines 23-33), with a result type that
has room for a configuration error: the body is seven assignments and the call of `srand`
(line 32 seeds the generator, which the model takes as a parameter of the run); it has no
test, no `throw` and no `exit`, so every call returns an instance. -/
def ABPSimulator.construct (ackNak : Bool) (headerLength packetLength : Nat)
    (timeoutTime : ℚ) (channelCapacity : Nat) (propagationDelay bitErrorRate : ℚ) :
    Except String ABPSimulator :=
  Except.ok
    { ackNak := ackNak, headerLength := headerLength, packetLength := packetLength,
      timeoutTime := timeoutTime, channelCapacity := channelCapacity,
      propagationDelay := propagationDelay, bitErrorRate := bitErrorRate }

/-- The sequence number of the last data frame the receiver accepted (a call of `send`
that toggled `nextExpectedFrame`) during the first `k` passes of the main loop; `none`
when no frame has been accepted yet. -/
def ABPSimulator.lastAcceptedSn (p : ABPSimulator) (rs : RandSource) (successPackets : Nat) :
    Nat → Option Nat
  | 0 => none
  | k + 1 =>
    if (p.loopState rs successPackets k).successPacketsDone < successPackets ∧
        (p.sendAndPush rs (p.loopState rs successPackets k)).nextExpectedFrame
          ≠ (p.loopState rs successPackets k).nextExpectedFrame
    then some (p.loopState rs successPackets k).sn
    else p.lastAcceptedSn rs successPackets k

/-- The number of bit errors among the `n` draws made by the calls of `rand()` number
`pos`, ..., `pos + n - 1`. -/
def errCount (ber : ℚ) (rs : RandSource) (pos n : Nat) : Nat :=
  (List.range n).countP (fun i => bitError ber rs (pos + i))

/-- The concrete scenario with a packet of `2 ^ 32 - 16` bits: the data frame has
`2 ^ 32 - 8` bits and `dataFrameLength + headerLength` wraps around to 0. -/
def wrapAckParams : ABPSimulator := { scenarioParams with packetLength := 4294967280 }

/-- The events removed from the queue (lines 142-143) by the inner loop, in order. -/
def ABPSimulator.dequeued (p : ABPSimulator) (deadline : ℚ) :
    List ACKEvent → SimState → List ACKEvent
  | [], _ => []
  | e :: rest, s =>
    if e.time ≥ deadline then []
    else
      match p.drainBody deadline e rest s with
      | (_, true) => [e]
      | (s1, false) => e :: p.dequeued deadline rest s1

/-- The events removed from the queue during one pass of the main loop. -/
def ABPSimulator.roundDequeued (p : ABPSimulator) (rs : RandSource) (s : SimState) :
    List ACKEvent :=
  if timesOut (p.timeoutEventTime s) (p.sendAndPush rs s) then []
  else p.dequeued (p.timeoutEventTime s) (p.sendAndPush rs s).ackEvents (p.sendAndPush rs s)

/-- A configuration with a header of `2 ^ 32 - 1` bits and a packet of 2 bits, 1000 bps,
no propagation delay, 1000 ms timeout, no bit errors: the data frame length wraps to 1
and `dataFrameLength + headerLength` wraps to 0. -/
def zeroTripParams : ABPSimulator :=
  { ackNak := false, headerLength := 4294967295, packetLength := 2, timeoutTime := 1000,
    channelCapacity := 1000, propagationDelay := 0, bitErrorRate := 0 }

/-! ## Predicates and closed forms used in the statements -/

/-- The sender's sequence numbers are bits and complement each other. -/
def SeqInv (s : SimState) : Prop :=
  (s.sn = 0 ∨ s.sn = 1) ∧ (s.nextExpectedAck = 0 ∨ s.nextExpectedAck = 1) ∧
    s.nextExpectedAck = 1 - s.sn

/-- The value of the `unsigned int` parameter `dataFrameLength` in the call on line 109. -/
def ABPSimulator.sentLength (p : ABPSimulator) : Nat := toUInt32 p.DATA_FRAME_LENGTH

/-- The time between a call of `send` in `simulate` and the arrival of its acknowledgment. -/
def ABPSimulator.roundTrip (p : ABPSimulator) : ℚ := ackDelay p p.sentLength

/-- The time between the start of a pass of the main loop and its timeout. -/
def ABPSimulator.timeoutDelay (p : ABPSimulator) : ℚ :=
  p.DATA_FRAME_TRANSMISSION_DELAY + p.timeoutTime

/-- The state at the main loop condition after `k` passes of a run without bit errors in
which every acknowledgment arrives before the timeout. -/
def zeroErrState (p : ABPSimulator) (k : Nat) : SimState :=
  { sn := k % 2, nextExpectedAck := (k + 1) % 2, nextExpectedFrame := k % 2,
    senderCurrentTime := (k : ℚ) * p.roundTrip, successPacketsDone := k, ackEvents := [],
    randCalls := k * (p.sentLength + p.headerLength) }

/-- The timing invariant of the pending queue: arrival times are non-decreasing from
head to tail, and every queued event arrives no earlier than the sender's current time
and no later than one round trip after it. -/
def TimeInv (p : ABPSimulator) (s : SimState) : Prop :=
  s.ackEvents.Pairwise (fun a b => a.time ≤ b.time) ∧
    ∀ e ∈ s.ackEvents, s.senderCurrentTime ≤ e.time ∧
      e.time ≤ s.senderCurrentTime + p.roundTrip

/-- Every queued event arrives at least one round trip after the sender's current time
(the invariant of the runs whose timeout delay is negative). -/
def LateInv (p : ABPSimulator) (s : SimState) : Prop :=
  ∀ e ∈ s.ackEvents, s.senderCurrentTime + p.roundTrip ≤ e.time

/-- The number of data frames the receiver has accepted (calls of `send` that toggled
`nextExpectedFrame`) during the first `k` passes of the main loop. -/
def ABPSimulator.delivered (p : ABPSimulator) (rs : RandSource) (successPackets : Nat) :
    Nat → Nat
  | 0 => 0
  | k + 1 =>
    p.delivered rs successPackets k +
      (if (p.loopState rs successPackets k).successPacketsDone < successPackets ∧
          (p.sendAndPush rs (p.loopState rs successPackets k)).nextExpectedFrame
            ≠ (p.loopState rs successPackets k).nextExpectedFrame
       then 1 else 0)

/-- The pending queue holds acknowledgments carrying the sender's `sn` (stale ones)
followed by acknowledgments carrying the receiver's `nextExpectedFrame`. -/
def QueuePattern (s : SimState) : Prop :=
  ∃ a b, s.ackEvents = a ++ b ∧ (∀ e ∈ a, e.rn = s.sn) ∧
    ∀ e ∈ b, e.rn = s.nextExpectedFrame

/-- The safety invariant relating the state to the number `d` of accepted data frames. -/
def SafeInv (s : SimState) (d : Nat) : Prop :=
  SeqInv s ∧ (s.nextExpectedFrame = 0 ∨ s.nextExpectedFrame = 1) ∧ QueuePattern s ∧
    d = s.successPacketsDone + (if s.nextExpectedFrame = s.sn then 0 else 1)

/-- The invariant behind a positive elapsed time: the timing invariant, a non-negative
current time, every queued event at least one round trip after time 0, and a current time
of at least one round trip once a success has been counted. -/
def PosInv (p : ABPSimulator) (s : SimState) : Prop :=
  TimeInv p s ∧ 0 ≤ s.senderCurrentTime ∧
    (∀ e ∈ s.ackEvents, p.roundTrip ≤ e.time) ∧
    (1 ≤ s.successPacketsDone → p.roundTrip ≤ s.senderCurrentTime)

/-- A whole number of milliseconds below `2 ^ 53`: such a value is a `double`, and a sum
of two such values that is again below `2 ^ 53` is computed by the `double` addition
without rounding. -/
def ExactMs (x : ℚ) : Prop := ∃ m : ℕ, x = (m : ℚ) ∧ m < 2 ^ 53

/-- The channel capacity is positive (no quotient is a division by zero) and the four
delays of a configuration are whole numbers of milliseconds: the transmission delay of
line 90, the quotient `1000 * (dataFrameLength + ackFrameLength) / capacity` of line 70,
twice the propagation delay (the product of line 70, which a `double` computes without
rounding) and the timeout. (The products by 1000 are integers below `2 ^ 42`, and a
`double` quotient of two integers whose exact value is an integer is that integer.) -/
def ABPSimulator.WholeMs (p : ABPSimulator) : Prop :=
  0 < p.channelCapacity ∧
  (∃ f : ℕ, p.DATA_FRAME_TRANSMISSION_DELAY = (f : ℚ)) ∧
  (∃ q : ℕ, 1000 * (((p.sentLength + p.headerLength) % UINT_MOD : Nat) : ℚ)
      / (p.channelCapacity : ℚ) = (q : ℚ)) ∧
  (∃ t : ℕ, 2 * p.propagationDelay = (t : ℚ)) ∧
  (∃ d : ℕ, p.timeoutTime = (d : ℚ))

/-- Every operand and every result of the additions of lines 107 and 70 in the pass of
the main loop that starts in state `s` is a whole number of milliseconds below `2 ^ 53`:
the current time, the transmission delay, the timeout, the quotient of line 70 and twice
the propagation delay (the operands), the two sums of line 107 (the second one is the
deadline) and the two sums of line 70 (the second one is the arrival time). -/
def ABPSimulator.ExactRound (p : ABPSimulator) (s : SimState) : Prop :=
  ExactMs s.senderCurrentTime ∧
  ExactMs p.DATA_FRAME_TRANSMISSION_DELAY ∧
  ExactMs p.timeoutTime ∧
  ExactMs (1000 * (((p.sentLength + p.headerLength) % UINT_MOD : Nat) : ℚ)
    / (p.channelCapacity : ℚ)) ∧
  ExactMs (2 * p.propagationDelay) ∧
  ExactMs (s.senderCurrentTime + p.DATA_FRAME_TRANSMISSION_DELAY) ∧
  ExactMs (s.senderCurrentTime + p.DATA_FRAME_TRANSMISSION_DELAY + p.timeoutTime) ∧
  ExactMs (s.senderCurrentTime + 1000 * (((p.sentLength + p.headerLength) % UINT_MOD : Nat) : ℚ)
    / (p.channelCapacity : ℚ)) ∧
  ExactMs (s.senderCurrentTime + 1000 * (((p.sentLength + p.headerLength) % UINT_MOD : Nat) : ℚ)
    / (p.channelCapacity : ℚ) + 2 * p.propagationDelay)

/-! ## Basic facts about the conversions and about `send` -/

theorem toUInt32_toInt32 (n : Nat) : toUInt32 (toInt32 n) = n % UINT_MOD := by
  unfold toUInt32 toInt32 UINT_MOD
  split_ifs <;> omega

theorem toInt32_of_lt {n : Nat} (h : n < 2 ^ 31) : toInt32 n = (n : Int) := by
  unfold toInt32 UINT_MOD
  have h1 : n % 2 ^ 32 = n := Nat.mod_eq_of_lt (by omega)
  rw [h1, if_pos h]

theorem toUInt32_DATA_FRAME_LENGTH (p : ABPSimulator) :
    toUInt32 p.DATA_FRAME_LENGTH = (p.headerLength + p.packetLength) % UINT_MOD := by
  unfold ABPSimulator.DATA_FRAME_LENGTH
  rw [toUInt32_toInt32, Nat.mod_mod]

/-- The sender locals and the queue after `send` are those before the call. -/
theorem send_frame (p : ABPSimulator) (rs : RandSource) (s : SimState) (t : ℚ)
    (sn d : Nat) :
    (p.send rs s t sn d).2.sn = s.sn ∧
    (p.send rs s t sn d).2.nextExpectedAck = s.nextExpectedAck ∧
    (p.send rs s t sn d).2.senderCurrentTime = s.senderCurrentTime ∧
    (p.send rs s t sn d).2.successPacketsDone = s.successPacketsDone ∧
    (p.send rs s t sn d).2.ackEvents = s.ackEvents := by
  unfold ABPSimulator.send
  rcases errorLoop p.bitErrorRate rs d s.randCalls 0 with ⟨_ | de, pos⟩
  · simp
  · simp only
    rcases errorLoop p.bitErrorRate rs p.headerLength pos 0 with ⟨_ | ae, pos2⟩ <;> simp

/-- What `sendAndPush` leaves unchanged. -/
theorem sendAndPush_frame (p : ABPSimulator) (rs : RandSource) (s : SimState) :
    (p.sendAndPush rs s).sn = s.sn ∧
    (p.sendAndPush rs s).nextExpectedAck = s.nextExpectedAck ∧
    (p.sendAndPush rs s).senderCurrentTime = s.senderCurrentTime ∧
    (p.sendAndPush rs s).successPacketsDone = s.successPacketsDone := by
  have h := send_frame p rs s s.senderCurrentTime s.sn (toUInt32 p.DATA_FRAME_LENGTH)
  unfold ABPSimulator.sendAndPush
  split
  · rename_i e s1 heq
    rw [heq] at h
    simpa using ⟨h.1, h.2.1, h.2.2.1, h.2.2.2.1⟩
  · rename_i s1 heq
    rw [heq] at h
    exact ⟨h.1, h.2.1, h.2.2.1, h.2.2.2.1⟩

/-! ## The sequence number invariant -/

theorem seqInv_init : SeqInv initState := by
  simp [SeqInv, initState]

theorem seqInv_sendAndPush (p : ABPSimulator) (rs : RandSource) (s : SimState)
    (h : SeqInv s) : SeqInv (p.sendAndPush rs s) := by
  obtain ⟨h1, h2, -, -⟩ := sendAndPush_frame p rs s
  unfold SeqInv at *
  rw [h1, h2]
  exact h

/-- The effect of one pass of the inner loop on the sender's protocol variables: either
they are unchanged, or the head was accepted before the deadline and they advance. -/
theorem drainBody_sender (p : ABPSimulator) (deadline : ℚ) (e : ACKEvent)
    (rest : List ACKEvent) (s : SimState) :
    ((p.drainBody deadline e rest s).1.sn = s.sn ∧
      (p.drainBody deadline e rest s).1.nextExpectedAck = s.nextExpectedAck ∧
      (p.drainBody deadline e rest s).1.successPacketsDone = s.successPacketsDone ∧
      ¬ (e.time < deadline ∧ accepts e s = true)) ∨
    (e.time < deadline ∧ accepts e s = true ∧
      (p.drainBody deadline e rest s).2 = true ∧
      (p.drainBody deadline e rest s).1.senderCurrentTime = e.time ∧
      (p.drainBody deadline e rest s).1.sn = Nat.xor s.sn 1 ∧
      (p.drainBody deadline e rest s).1.nextExpectedAck = Nat.xor s.nextExpectedAck 1 ∧
      (p.drainBody deadline e rest s).1.successPacketsDone
        = (s.successPacketsDone + 1) % UINT_MOD) := by
  unfold ABPSimulator.drainBody
  by_cases h1 : e.time ≥ deadline
  · left
    rw [if_pos h1]
    exact ⟨rfl, rfl, rfl, fun h => absurd h1 (not_le.mpr h.1)⟩
  · rw [if_neg h1]
    by_cases h2 : accepts e s = true
    · right
      simp [h2, advanceSender, not_le.mp h1]
    · left
      simp only [Bool.not_eq_true] at h2
      simp only [h2, Bool.false_or, Bool.false_eq_true, if_false]
      split_ifs <;> simp

theorem seqInv_drainBody (p : ABPSimulator) (deadline : ℚ) (e : ACKEvent)
    (rest : List ACKEvent) (s : SimState) (h : SeqInv s) :
    SeqInv (p.drainBody deadline e rest s).1 := by
  obtain ⟨h1, h2, h3⟩ := h
  unfold SeqInv
  rcases drainBody_sender p deadline e rest s with ⟨a, b, -, -⟩ | ⟨-, -, -, -, a, b, -⟩
  · rw [a, b]; exact ⟨h1, h2, h3⟩
  · rw [a, b]
    rcases h1 with h1 | h1 <;> rw [h1] at h3 ⊢ <;> rw [h3] <;> decide

theorem seqInv_drainTrace (p : ABPSimulator) (deadline : ℚ) (q : List ACKEvent) :
    ∀ s, SeqInv s → ∀ s1 ∈ p.drainTrace deadline q s, SeqInv s1 := by
  induction q with
  | nil => intro s _ s1 hs1; simp [ABPSimulator.drainTrace] at hs1
  | cons e rest ih =>
    intro s hs s1 hs1
    have hb := seqInv_drainBody p deadline e rest s hs
    unfold ABPSimulator.drainTrace at hs1
    split at hs1
    · rename_i s2 heq
      rw [heq] at hb
      simp only [List.mem_singleton] at hs1
      rw [hs1]; exact hb
    · rename_i s2 heq
      rw [heq] at hb
      rcases List.mem_cons.mp hs1 with h | h
      · rw [h]; exact hb
      · exact ih s2 hb s1 h

theorem seqInv_drainLoop (p : ABPSimulator) (deadline : ℚ) (q : List ACKEvent) :
    ∀ s, SeqInv s → SeqInv (p.drainLoop deadline q s) := by
  induction q with
  | nil => intro s hs; simpa [ABPSimulator.drainLoop] using hs
  | cons e rest ih =>
    intro s hs
    have hb := seqInv_drainBody p deadline e rest s hs
    unfold ABPSimulator.drainLoop
    split
    · rename_i s2 heq
      rw [heq] at hb; exact hb
    · rename_i s2 heq
      rw [heq] at hb; exact ih s2 hb

theorem seqInv_setTime (s : SimState) (t : ℚ) (h : SeqInv s) :
    SeqInv { s with senderCurrentTime := t } := h

theorem seqInv_round (p : ABPSimulator) (rs : RandSource) (s : SimState) (h : SeqInv s) :
    SeqInv (p.round rs s) := by
  have h1 := seqInv_sendAndPush p rs s h
  unfold ABPSimulator.round ABPSimulator.race
  split_ifs
  · exact seqInv_setTime _ _ h1
  · exact seqInv_drainLoop p _ _ _ h1

theorem seqInv_roundTrace (p : ABPSimulator) (rs : RandSource) (s : SimState)
    (h : SeqInv s) : ∀ s1 ∈ p.roundTrace rs s, SeqInv s1 := by
  have h1 := seqInv_sendAndPush p rs s h
  intro s1 hs1
  unfold ABPSimulator.roundTrace at hs1
  simp only at hs1
  split_ifs at hs1
  · simp only [List.mem_cons, List.mem_singleton, List.not_mem_nil, or_false] at hs1
    rcases hs1 with h2 | h2
    · rw [h2]; exact h1
    · rw [h2]; exact seqInv_setTime _ _ h1
  · rcases List.mem_cons.mp hs1 with h2 | h2
    · rw [h2]; exact h1
    · exact seqInv_drainTrace p _ _ _ h1 s1 h2

theorem seqInv_loopState (p : ABPSimulator) (rs : RandSource) (n : Nat) :
    ∀ k, SeqInv (p.loopState rs n k) := by
  intro k
  induction k with
  | zero => exact seqInv_init
  | succ k ih =>
    unfold ABPSimulator.loopState
    simp only
    split_ifs
    · exact seqInv_round p rs _ ih
    · exact ih

/-- C1: in every state reachable by `simulate` (after the initialisation, after every
call of `send` and after every pass of the drain loop), `sn` and `nextExpectedAck` are
bits and `nextExpectedAck = 1 - sn`. -/
theorem C1_seq_invariant (p : ABPSimulator) (rs : RandSource) (successPackets : Nat)
    (s : SimState) (h : p.Reachable rs successPackets s) :
    (s.sn = 0 ∨ s.sn = 1) ∧ (s.nextExpectedAck = 0 ∨ s.nextExpectedAck = 1) ∧
      s.nextExpectedAck = 1 - s.sn := by
  obtain ⟨k, hk | ⟨-, hk⟩⟩ := h
  · rw [hk]; exact seqInv_loopState p rs successPackets k
  · exact seqInv_roundTrace p rs _ (seqInv_loopState p rs successPackets k) s hk

theorem C1_seq_invariant_witness :
    scenarioParams.Reachable rsMax 3 (scenarioParams.sendAndPush rsMax initState) ∧
      (scenarioParams.sendAndPush rsMax initState).nextExpectedAck
        = 1 - (scenarioParams.sendAndPush rsMax initState).sn :=
  have hr : scenarioParams.Reachable rsMax 3 (scenarioParams.sendAndPush rsMax initState) :=
    ⟨0, Or.inr ⟨by decide, by
      unfold ABPSimulator.roundTrace
      simp only [ABPSimulator.loopState]
      split_ifs <;> simp⟩⟩
  ⟨hr, (C1_seq_invariant scenarioParams rsMax 3 _ hr).2.2⟩

/-! ## Runs without bit errors -/

theorem bitError_zero (rs : RandSource) (pos : Nat) : bitError 0 rs pos = false := by
  unfold bitError
  simp only [decide_eq_false_iff_not, not_lt]
  exact div_nonneg (Nat.cast_nonneg _) (Nat.cast_nonneg _)

/-- Without bit errors on the calls it makes, a per-bit loop runs to its end and keeps
its error count. -/
theorem errorLoop_clean (ber : ℚ) (rs : RandSource) (n : Nat) :
    ∀ pos errorBits, (∀ i, pos ≤ i → i < pos + n → bitError ber rs i = false) →
      errorLoop ber rs n pos errorBits = (some errorBits, pos + n) := by
  induction n with
  | zero => intro pos errorBits _; rfl
  | succ n ih =>
    intro pos errorBits h
    unfold errorLoop
    rw [h pos (le_refl _) (by omega)]
    simp only [Bool.false_eq_true, if_false]
    rw [ih (pos + 1) errorBits (fun i h1 h2 => h i (by omega) (by omega))]
    congr 1
    omega

/-- The result of `send` when no call of `rand()` it makes yields a bit error. -/
theorem send_clean (p : ABPSimulator) (rs : RandSource) (s : SimState) (t : ℚ)
    (sn d : Nat)
    (h : ∀ i, s.randCalls ≤ i → i < s.randCalls + d + p.headerLength →
      bitError p.bitErrorRate rs i = false) :
    p.send rs s t sn d =
      (some { rn := if s.nextExpectedFrame = sn then Nat.xor s.nextExpectedFrame 1
                    else s.nextExpectedFrame,
              error := false, time := t + ackDelay p d },
       { s with nextExpectedFrame := if s.nextExpectedFrame = sn
                  then Nat.xor s.nextExpectedFrame 1 else s.nextExpectedFrame,
                randCalls := s.randCalls + d + p.headerLength }) := by
  unfold ABPSimulator.send
  rw [errorLoop_clean _ _ _ _ _ (fun i h1 h2 => h i h1 (by omega))]
  simp only
  rw [errorLoop_clean _ _ _ _ _ (fun i h1 h2 => h i (by omega) (by omega))]
  simp

theorem xor_mod_two (k : Nat) : Nat.xor (k % 2) 1 = (k + 1) % 2 := by
  rcases Nat.mod_two_eq_zero_or_one k with h | h
  · rw [h]; have : (k + 1) % 2 = 1 := by omega
    rw [this]; decide
  · rw [h]; have : (k + 1) % 2 = 0 := by omega
    rw [this]; decide

theorem zeroErrState_zero (p : ABPSimulator) : zeroErrState p 0 = initState := by
  simp [zeroErrState, initState]

/-- Without bit errors and with the acknowledgment ahead of the timeout, one pass of the
main loop accepts the acknowledgment of the frame it sent. -/
theorem round_zeroErr (p : ABPSimulator) (rs : RandSource) (k : Nat)
    (hber : p.bitErrorRate = 0) (hrace : p.roundTrip < p.timeoutDelay)
    (hk : k + 1 < UINT_MOD) :
    p.round rs (zeroErrState p k) = zeroErrState p (k + 1) := by
  have hsend := send_clean p rs (zeroErrState p k) (zeroErrState p k).senderCurrentTime
    (zeroErrState p k).sn p.sentLength (fun i _ _ => by rw [hber]; exact bitError_zero rs i)
  have hlt : ¬ ((k : ℚ) * p.roundTrip + p.roundTrip
      ≥ (k : ℚ) * p.roundTrip + p.DATA_FRAME_TRANSMISSION_DELAY + p.timeoutTime) := by
    unfold ABPSimulator.timeoutDelay at hrace
    rw [not_le]; linarith
  unfold ABPSimulator.round ABPSimulator.sendAndPush
  rw [show toUInt32 p.DATA_FRAME_LENGTH = p.sentLength from rfl, hsend]
  simp only [zeroErrState, if_true, List.nil_append, ABPSimulator.race, timesOut,
    ABPSimulator.timeoutEventTime, ABPSimulator.roundTrip] at hlt ⊢
  rw [decide_eq_false hlt]
  simp only [Bool.false_eq_true, if_false, ABPSimulator.drainLoop, ABPSimulator.drainBody,
    if_neg hlt, accepts, xor_mod_two, beq_self_eq_true, Bool.not_false, Bool.and_self,
    Bool.true_or, if_true, advanceSender, Nat.mod_eq_of_lt hk]
  have h2 : (k + 1 + 1) % 2 = k % 2 := by omega
  simp only [h2, SimState.mk.injEq, true_and, and_true, Nat.add_mod_mod]
  refine ⟨?_, ?_⟩
  · push_cast; ring
  · ring

/-- Without bit errors and with the acknowledgment ahead of the timeout, the main loop
started after `k` successes leaves after exactly `j` more passes, given enough fuel. -/
theorem mainLoop_zeroErr (p : ABPSimulator) (rs : RandSource) (n extra : Nat)
    (hber : p.bitErrorRate = 0) (hrace : p.roundTrip < p.timeoutDelay)
    (hn : n < UINT_MOD) :
    ∀ j k, k + j = n →
      p.mainLoop rs n (j + extra) (zeroErrState p k) = some (zeroErrState p n, j) := by
  intro j
  induction j with
  | zero =>
    intro k hk
    simp only [Nat.add_zero] at hk
    subst hk
    cases extra <;> simp [ABPSimulator.mainLoop, zeroErrState]
  | succ j ih =>
    intro k hk
    have hlt : (zeroErrState p k).successPacketsDone < n := by
      simp only [zeroErrState]; omega
    rw [show j + 1 + extra = (j + extra) + 1 by omega]
    unfold ABPSimulator.mainLoop
    rw [if_pos hlt, round_zeroErr p rs k hber hrace (by omega), ih (k + 1) (by omega)]
    rfl

theorem sentLength_eq (p : ABPSimulator) (h : p.headerLength + p.packetLength < 2 ^ 32) :
    p.sentLength = p.headerLength + p.packetLength := by
  unfold ABPSimulator.sentLength
  rw [toUInt32_DATA_FRAME_LENGTH]
  exact Nat.mod_eq_of_lt h

theorem roundTrip_eq (p : ABPSimulator)
    (h : 2 * p.headerLength + p.packetLength < 2 ^ 32) :
    p.roundTrip = 1000 * ((p.headerLength : ℚ) + p.packetLength) / p.channelCapacity
      + 1000 * (p.headerLength : ℚ) / p.channelCapacity + 2 * p.propagationDelay := by
  unfold ABPSimulator.roundTrip ackDelay
  rw [sentLength_eq p (by omega), Nat.mod_eq_of_lt (by unfold UINT_MOD; omega)]
  push_cast
  ring

/-- C4: in the concrete scenario (8 header bits, 80 packet bits, 1000 bps, 5 ms, timeout
1000 ms, no bit errors, plain acknowledgments, one packet) and for every draw sequence,
`simulate` leaves the main loop after one pass with 106 ms elapsed and returns the
throughput 40000/53 bps. -/
theorem C4_concrete_scenario (rs : RandSource) (fuel : Nat) :
    (scenarioParams.mainLoop rs 1 (fuel + 1) initState).map
        (fun r => (r.1.senderCurrentTime, r.1.successPacketsDone, r.2)) = some (106, 1, 1) ∧
      scenarioParams.simulate rs 1 (fuel + 1) = some (40000 / 53) := by
  have hrt : scenarioParams.roundTrip = 106 := by decide!
  have hto : scenarioParams.timeoutDelay = 1088 := by decide!
  have h := mainLoop_zeroErr scenarioParams rs 1 fuel rfl (by rw [hrt, hto]; norm_num)
    (by decide) 1 0 rfl
  rw [zeroErrState_zero, Nat.add_comm 1 fuel] at h
  unfold ABPSimulator.simulate
  rw [h]
  simp only [Option.map_some', zeroErrState, hrt, ABPSimulator.throughput]
  constructor
  · norm_num
  · norm_num [scenarioParams, UINT_MOD]

/-! ## Runs in which the `double` arithmetic is exact -/

theorem exactMs_intro (m : ℕ) (x B : ℚ) (hx : x = (m : ℚ)) (hle : x ≤ B)
    (hB : B < 2 ^ 53) : ExactMs x := by
  refine ⟨m, hx, ?_⟩
  have h : (m : ℚ) < 2 ^ 53 := by rw [← hx]; linarith
  exact_mod_cast h

/-- With whole delays and the acknowledgment ahead of the timeout, a pass that starts at
a whole current time, with the deadline within the bound, computes only whole numbers of
milliseconds below `2 ^ 53`. -/
theorem exactRound_intro (p : ABPSimulator) (s : SimState) (m : ℕ) (B : ℚ)
    (hw : p.WholeMs) (hrace : p.roundTrip < p.timeoutDelay)
    (hs : s.senderCurrentTime = (m : ℚ))
    (hle : s.senderCurrentTime + p.timeoutDelay ≤ B) (hB : B < 2 ^ 53) :
    p.ExactRound s := by
  obtain ⟨-, ⟨f, hf⟩, ⟨q, hq⟩, ⟨t, ht⟩, ⟨d, hd⟩⟩ := hw
  have hrt : p.roundTrip = (q : ℚ) + (t : ℚ) := by
    unfold ABPSimulator.roundTrip ackDelay
    rw [hq, ht]
  have htd : p.timeoutDelay = (f : ℚ) + (d : ℚ) := by
    unfold ABPSimulator.timeoutDelay
    rw [hf, hd]
  have hf0 : (0 : ℚ) ≤ (f : ℚ) := Nat.cast_nonneg _
  have hq0 : (0 : ℚ) ≤ (q : ℚ) := Nat.cast_nonneg _
  have ht0 : (0 : ℚ) ≤ (t : ℚ) := Nat.cast_nonneg _
  have hd0 : (0 : ℚ) ≤ (d : ℚ) := Nat.cast_nonneg _
  rw [hrt, htd] at hrace
  rw [htd] at hle
  refine ⟨?_, ?_, ?_, ?_, ?_, ?_, ?_, ?_, ?_⟩
  · exact exactMs_intro m _ B hs (by linarith) hB
  · exact exactMs_intro f _ B hf (by rw [hf]; linarith) hB
  · exact exactMs_intro d _ B hd (by rw [hd]; linarith) hB
  · exact exactMs_intro q _ B hq (by rw [hq]; linarith) hB
  · exact exactMs_intro t _ B ht (by rw [ht]; linarith) hB
  · refine exactMs_intro (m + f) _ B ?_ (by rw [hf]; linarith) hB
    rw [hs, hf]; push_cast; ring
  · refine exactMs_intro (m + f + d) _ B ?_ (by rw [hf, hd]; linarith) hB
    rw [hs, hf, hd]; push_cast; ring
  · refine exactMs_intro (m + q) _ B ?_ (by rw [hq]; linarith) hB
    rw [hs, hq]; push_cast; ring
  · refine exactMs_intro (m + q + t) _ B ?_ (by rw [hq, add_assoc, ht]; linarith) hB
    rw [hs, hq, add_assoc, ht]; push_cast; ring

/-- The passes of a run without bit errors compute only whole numbers of milliseconds
below `2 ^ 53`, when the delays are whole, the acknowledgment is ahead of the timeout and
`n` timeout delays stay below `2 ^ 53`. -/
theorem exactRound_zeroErr (p : ABPSimulator) (n k : Nat) (hw : p.WholeMs)
    (hrace : p.roundTrip < p.timeoutDelay) (hk : k < n)
    (hb : (n : ℚ) * p.timeoutDelay < 2 ^ 53) :
    p.ExactRound (zeroErrState p k) := by
  obtain ⟨hC0, ⟨f, hf⟩, ⟨q, hq⟩, ⟨t, ht⟩, ⟨d, hd⟩⟩ := hw
  have hrt : p.roundTrip = (q : ℚ) + (t : ℚ) := by
    unfold ABPSimulator.roundTrip ackDelay
    rw [hq, ht]
  have hA0 : (0 : ℚ) ≤ p.roundTrip := by
    rw [hrt]
    have h1 : (0 : ℚ) ≤ (q : ℚ) := Nat.cast_nonneg _
    have h2 : (0 : ℚ) ≤ (t : ℚ) := Nat.cast_nonneg _
    linarith
  have hk1 : ((k : ℚ) + 1) ≤ (n : ℚ) := by exact_mod_cast hk
  have hk0 : (0 : ℚ) ≤ (k : ℚ) := Nat.cast_nonneg _
  refine exactRound_intro p _ (k * (q + t)) ((n : ℚ) * p.timeoutDelay)
    ⟨hC0, ⟨f, hf⟩, ⟨q, hq⟩, ⟨t, ht⟩, ⟨d, hd⟩⟩ hrace ?_ ?_ hb
  · simp only [zeroErrState]
    rw [hrt]; push_cast; ring
  · simp only [zeroErrState]
    have h1 : (k : ℚ) * p.roundTrip ≤ (k : ℚ) * p.timeoutDelay :=
      mul_le_mul_of_nonneg_left (le_of_lt hrace) hk0
    have h2 : ((k : ℚ) + 1) * p.timeoutDelay ≤ (n : ℚ) * p.timeoutDelay :=
      mul_le_mul_of_nonneg_right hk1 (by linarith)
    linarith

/-- The result of `send` when the per-bit loop on the data frame returns `NULL`. -/
theorem send_lost_data (p : ABPSimulator) (rs : RandSource) (s : SimState) (t : ℚ)
    (sn d pos : Nat) (h1 : errorLoop p.bitErrorRate rs d s.randCalls 0 = (none, pos)) :
    p.send rs s t sn d = (none, { s with randCalls := pos }) := by
  unfold ABPSimulator.send
  rw [h1]

/-- The result of `send` when the data frame gets through and the per-bit loop on the
acknowledgment frame returns `NULL`. -/
theorem send_lost_ack (p : ABPSimulator) (rs : RandSource) (s : SimState) (t : ℚ)
    (sn d de pos pos2 : Nat)
    (h1 : errorLoop p.bitErrorRate rs d s.randCalls 0 = (some de, pos))
    (h2 : errorLoop p.bitErrorRate rs p.headerLength pos 0 = (none, pos2)) :
    p.send rs s t sn d =
      (none, { s with
        nextExpectedFrame := if de = 0 ∧ s.nextExpectedFrame = sn
          then Nat.xor s.nextExpectedFrame 1 else s.nextExpectedFrame,
        randCalls := pos2 }) := by
  unfold ABPSimulator.send
  rw [h1]
  simp only
  rw [h2]

/-- The result of `send` when both per-bit loops run to their end. -/
theorem send_delivered (p : ABPSimulator) (rs : RandSource) (s : SimState) (t : ℚ)
    (sn d de pos ae pos2 : Nat)
    (h1 : errorLoop p.bitErrorRate rs d s.randCalls 0 = (some de, pos))
    (h2 : errorLoop p.bitErrorRate rs p.headerLength pos 0 = (some ae, pos2)) :
    p.send rs s t sn d =
      (some { rn := if de = 0 ∧ s.nextExpectedFrame = sn
                then Nat.xor s.nextExpectedFrame 1 else s.nextExpectedFrame,
              error := decide (0 < ae), time := t + ackDelay p d },
       { s with
        nextExpectedFrame := if de = 0 ∧ s.nextExpectedFrame = sn
          then Nat.xor s.nextExpectedFrame 1 else s.nextExpectedFrame,
        randCalls := pos2 }) := by
  unfold ABPSimulator.send
  rw [h1]
  simp only
  rw [h2]

theorem send_event (p : ABPSimulator) (rs : RandSource) (s : SimState) (t : ℚ)
    (sn d : Nat) (e : ACKEvent) (s1 : SimState) (h : p.send rs s t sn d = (some e, s1)) :
    e.time = t + ackDelay p d ∧ e.rn = s1.nextExpectedFrame := by
  rcases h1 : errorLoop p.bitErrorRate rs d s.randCalls 0 with ⟨_ | de, pos⟩
  · rw [send_lost_data p rs s t sn d pos h1] at h
    simp at h
  · rcases h2 : errorLoop p.bitErrorRate rs p.headerLength pos 0 with ⟨_ | ae, pos2⟩
    · rw [send_lost_ack p rs s t sn d de pos pos2 h1 h2] at h
      simp at h
    · rw [send_delivered p rs s t sn d de pos ae pos2 h1 h2] at h
      simp only [Prod.mk.injEq, Option.some.injEq] at h
      obtain ⟨h3, h4⟩ := h
      subst h3; subst h4
      exact ⟨rfl, rfl⟩

/-- The queue after `sendAndPush`: unchanged, or one event more at the tail, arriving one
round trip after the current time. -/
theorem sendAndPush_queue (p : ABPSimulator) (rs : RandSource) (s : SimState) :
    (p.sendAndPush rs s).ackEvents = s.ackEvents ∨
    ∃ e : ACKEvent, e.time = s.senderCurrentTime + p.roundTrip ∧
      (p.sendAndPush rs s).ackEvents = s.ackEvents ++ [e] := by
  have hf := send_frame p rs s s.senderCurrentTime s.sn (toUInt32 p.DATA_FRAME_LENGTH)
  have he := send_event p rs s s.senderCurrentTime s.sn (toUInt32 p.DATA_FRAME_LENGTH)
  unfold ABPSimulator.sendAndPush
  split
  · rename_i e s1 heq
    rw [heq] at hf
    right
    refine ⟨e, (he e s1 heq).1, ?_⟩
    show s1.ackEvents ++ [e] = s.ackEvents ++ [e]
    rw [show s1.ackEvents = s.ackEvents from hf.2.2.2.2]
  · rename_i s1 heq
    rw [heq] at hf
    left
    exact hf.2.2.2.2

theorem timeInv_init (p : ABPSimulator) : TimeInv p initState := by
  simp [TimeInv, initState]

theorem timeInv_sendAndPush (p : ABPSimulator) (rs : RandSource) (s : SimState)
    (hA : 0 ≤ p.roundTrip) (h : TimeInv p s) : TimeInv p (p.sendAndPush rs s) := by
  obtain ⟨-, -, hc, -⟩ := sendAndPush_frame p rs s
  obtain ⟨hs, hb⟩ := h
  unfold TimeInv
  rw [hc]
  rcases sendAndPush_queue p rs s with hq | ⟨e, het, hq⟩
  · rw [hq]; exact ⟨hs, hb⟩
  · rw [hq]
    constructor
    · rw [List.pairwise_append]
      refine ⟨hs, List.pairwise_singleton _ _, ?_⟩
      intro a ha b hb1
      rw [List.mem_singleton] at hb1
      rw [hb1, het]
      exact (hb a ha).2
    · intro x hx
      rcases List.mem_append.mp hx with hx | hx
      · exact hb x hx
      · rw [List.mem_singleton] at hx
        rw [hx, het]
        exact ⟨by linarith, le_refl _⟩

/-- One pass of the inner loop keeps the timing invariant, keeps the current time at or
before the deadline, does not move the current time backwards, and, unless it leaves the
loop, removes exactly the head of the queue. -/
theorem timeInv_drainBody (p : ABPSimulator) (deadline : ℚ) (e : ACKEvent)
    (rest : List ACKEvent) (s : SimState) (hq : s.ackEvents = e :: rest)
    (hinv : TimeInv p s) (hd : s.senderCurrentTime ≤ deadline) :
    TimeInv p (p.drainBody deadline e rest s).1 ∧
      (p.drainBody deadline e rest s).1.senderCurrentTime ≤ deadline ∧
      s.senderCurrentTime ≤ (p.drainBody deadline e rest s).1.senderCurrentTime ∧
      ((p.drainBody deadline e rest s).2 = false →
        (p.drainBody deadline e rest s).1.ackEvents = rest) := by
  obtain ⟨hs, hb⟩ := hinv
  rw [hq] at hs hb
  have hhead := hb e (List.mem_cons_self _ _)
  have hrest : ∀ x ∈ rest, e.time ≤ x.time := fun x hx => List.rel_of_pairwise_cons hs hx
  have hs2 : rest.Pairwise (fun a b => a.time ≤ b.time) := List.Pairwise.of_cons hs
  unfold ABPSimulator.drainBody
  by_cases h1 : e.time ≥ deadline
  · rw [if_pos h1]
    refine ⟨⟨?_, ?_⟩, le_refl _, hd, fun h => by simp at h⟩
    · simp only [hq]; exact hs
    · simp only [hq]
      intro x hx
      have hx2 := hb x hx
      rcases List.mem_cons.mp hx with hx1 | hx1
      · rw [hx1]; exact ⟨h1, by linarith⟩
      · exact ⟨le_trans h1 (hrest x hx1), by linarith⟩
  · rw [if_neg h1]
    rw [not_le] at h1
    have key : ∀ x ∈ rest, e.time ≤ x.time ∧ x.time ≤ e.time + p.roundTrip := by
      intro x hx
      have hx2 := hb x (List.mem_cons_of_mem _ hx)
      exact ⟨hrest x hx, by linarith⟩
    simp only
    cases hc : (accepts e s || p.ackNak)
    · simp only [Bool.false_eq_true, if_false]
      cases hr : rest.isEmpty
      · simp only [Bool.false_eq_true, if_false]
        exact ⟨⟨hs2, key⟩, le_of_lt h1, hhead.1, fun _ => trivial⟩
      · simp only [if_true]
        have h4 : rest = [] := List.isEmpty_iff.mp hr
        refine ⟨⟨?_, ?_⟩, le_refl _, le_trans hhead.1 (le_of_lt h1), fun _ => trivial⟩
        · simp [h4]
        · simp [h4]
    · simp only [if_true]
      exact ⟨⟨hs2, key⟩, le_of_lt h1, hhead.1, fun h => by simp at h⟩

theorem timeInv_drainTrace (p : ABPSimulator) (deadline : ℚ) (q : List ACKEvent) :
    ∀ s, s.ackEvents = q → TimeInv p s → s.senderCurrentTime ≤ deadline →
      ∀ s1 ∈ p.drainTrace deadline q s,
        TimeInv p s1 ∧ s.senderCurrentTime ≤ s1.senderCurrentTime ∧
          s1.senderCurrentTime ≤ deadline := by
  induction q with
  | nil => intro s _ _ _ s1 hs1; simp [ABPSimulator.drainTrace] at hs1
  | cons e rest ih =>
    intro s hq hinv hd s1 hs1
    obtain ⟨hb1, hb2, hb3, hb4⟩ := timeInv_drainBody p deadline e rest s hq hinv hd
    unfold ABPSimulator.drainTrace at hs1
    split at hs1
    · rename_i s2 heq
      rw [heq] at hb1 hb2 hb3
      simp only [List.mem_singleton] at hs1
      rw [hs1]; exact ⟨hb1, hb3, hb2⟩
    · rename_i s2 heq
      rw [heq] at hb1 hb2 hb3 hb4
      rcases List.mem_cons.mp hs1 with h | h
      · rw [h]; exact ⟨hb1, hb3, hb2⟩
      · obtain ⟨h1, h2, h3⟩ := ih s2 (hb4 rfl) hb1 hb2 s1 h
        exact ⟨h1, le_trans hb3 h2, h3⟩

theorem timeInv_drainLoop (p : ABPSimulator) (deadline : ℚ) (q : List ACKEvent) :
    ∀ s, s.ackEvents = q → TimeInv p s → s.senderCurrentTime ≤ deadline →
      TimeInv p (p.drainLoop deadline q s) ∧
        s.senderCurrentTime ≤ (p.drainLoop deadline q s).senderCurrentTime ∧
        (p.drainLoop deadline q s).senderCurrentTime ≤ deadline := by
  induction q with
  | nil => intro s _ hinv hd; exact ⟨hinv, le_refl _, hd⟩
  | cons e rest ih =>
    intro s hq hinv hd
    obtain ⟨hb1, hb2, hb3, hb4⟩ := timeInv_drainBody p deadline e rest s hq hinv hd
    unfold ABPSimulator.drainLoop
    split
    · rename_i s2 heq
      rw [heq] at hb1 hb2 hb3
      exact ⟨hb1, hb3, hb2⟩
    · rename_i s2 heq
      rw [heq] at hb1 hb2 hb3 hb4
      obtain ⟨h1, h2, h3⟩ := ih s2 (hb4 rfl) hb1 hb2
      exact ⟨h1, le_trans hb3 h2, h3⟩

/-- The timeout branch (line 117) keeps the timing invariant. -/
theorem timeInv_timeout (p : ABPSimulator) (deadline : ℚ) (s1 : SimState)
    (hinv : TimeInv p s1) (hd : s1.senderCurrentTime ≤ deadline)
    (hto : timesOut deadline s1 = true) :
    TimeInv p { s1 with senderCurrentTime := deadline } := by
  obtain ⟨hs, hb⟩ := hinv
  refine ⟨hs, ?_⟩
  intro x hx
  have hx2 := hb x hx
  refine ⟨?_, by simp only; linarith⟩
  unfold timesOut at hto
  simp only at hx ⊢
  split at hto
  · rename_i heq
    rw [heq] at hx
    simp at hx
  · rename_i e rest heq
    rw [decide_eq_true_iff] at hto
    rw [heq] at hx hs
    rcases List.mem_cons.mp hx with h | h
    · rw [h]; exact hto
    · exact le_trans hto (List.rel_of_pairwise_cons hs h)

/-- With non-negative round trip and timeout delays, a pass of the main loop keeps the
timing invariant and does not move the current time backwards. -/
theorem timeInv_round (p : ABPSimulator) (rs : RandSource) (s : SimState)
    (hA : 0 ≤ p.roundTrip) (hT : 0 ≤ p.timeoutDelay) (hinv : TimeInv p s) :
    TimeInv p (p.round rs s) ∧ s.senderCurrentTime ≤ (p.round rs s).senderCurrentTime := by
  have h1 := timeInv_sendAndPush p rs s hA hinv
  obtain ⟨-, -, hc, -⟩ := sendAndPush_frame p rs s
  have hd : (p.sendAndPush rs s).senderCurrentTime ≤ p.timeoutEventTime s := by
    rw [hc]
    unfold ABPSimulator.timeoutEventTime
    unfold ABPSimulator.timeoutDelay at hT
    linarith
  unfold ABPSimulator.round ABPSimulator.race
  split_ifs with hto
  · exact ⟨timeInv_timeout p _ _ h1 hd hto, by rw [← hc]; exact hd⟩
  · obtain ⟨h2, h3, -⟩ := timeInv_drainLoop p (p.timeoutEventTime s) _ _ rfl h1 hd
    exact ⟨h2, by rw [← hc]; exact h3⟩

theorem timeInv_roundTrace (p : ABPSimulator) (rs : RandSource) (s : SimState)
    (hA : 0 ≤ p.roundTrip) (hT : 0 ≤ p.timeoutDelay) (hinv : TimeInv p s) :
    ∀ s1 ∈ p.roundTrace rs s,
      TimeInv p s1 ∧ s.senderCurrentTime ≤ s1.senderCurrentTime := by
  have h1 := timeInv_sendAndPush p rs s hA hinv
  obtain ⟨-, -, hc, -⟩ := sendAndPush_frame p rs s
  have hd : (p.sendAndPush rs s).senderCurrentTime ≤ p.timeoutEventTime s := by
    rw [hc]
    unfold ABPSimulator.timeoutEventTime
    unfold ABPSimulator.timeoutDelay at hT
    linarith
  intro s1 hs1
  unfold ABPSimulator.roundTrace at hs1
  simp only at hs1
  split_ifs at hs1 with hto
  · simp only [List.mem_cons, List.mem_singleton, List.not_mem_nil, or_false] at hs1
    rcases hs1 with h2 | h2
    · rw [h2]; exact ⟨h1, le_of_eq hc.symm⟩
    · rw [h2]; exact ⟨timeInv_timeout p _ _ h1 hd hto, by rw [← hc]; exact hd⟩
  · rcases List.mem_cons.mp hs1 with h2 | h2
    · rw [h2]; exact ⟨h1, le_of_eq hc.symm⟩
    · obtain ⟨h3, h4, -⟩ := timeInv_drainTrace p _ _ _ rfl h1 hd s1 h2
      exact ⟨h3, by rw [← hc]; exact h4⟩

theorem timeInv_loopState (p : ABPSimulator) (rs : RandSource) (n : Nat)
    (hA : 0 ≤ p.roundTrip) (hT : 0 ≤ p.timeoutDelay) :
    ∀ k, TimeInv p (p.loopState rs n k) := by
  intro k
  induction k with
  | zero => exact timeInv_init p
  | succ k ih =>
    unfold ABPSimulator.loopState
    simp only
    split_ifs
    · exact (timeInv_round p rs _ hA hT ih).1
    · exact ih

/-- With non-negative round trip and timeout delays, every reachable state satisfies the
timing invariant of the pending queue. -/
theorem timeInv_reachable (p : ABPSimulator) (rs : RandSource) (n : Nat) (s : SimState)
    (hA : 0 ≤ p.roundTrip) (hT : 0 ≤ p.timeoutDelay) (h : p.Reachable rs n s) :
    TimeInv p s := by
  obtain ⟨k, hk | ⟨-, hk⟩⟩ := h
  · rw [hk]; exact timeInv_loopState p rs n hA hT k
  · exact (timeInv_roundTrace p rs _ hA hT (timeInv_loopState p rs n hA hT k) s hk).1

theorem roundTrip_nonneg (p : ABPSimulator) (hτ : 0 ≤ p.propagationDelay) :
    0 ≤ p.roundTrip := by
  unfold ABPSimulator.roundTrip ackDelay
  have h1 : (0 : ℚ) ≤ 1000 * (((p.sentLength + p.headerLength) % UINT_MOD : Nat) : ℚ)
      / (p.channelCapacity : ℚ) :=
    div_nonneg (mul_nonneg (by norm_num) (Nat.cast_nonneg _)) (Nat.cast_nonneg _)
  linarith

theorem timeoutDelay_nonneg (p : ABPSimulator) (hΔ : 0 ≤ p.timeoutTime)
    (hD : (p.headerLength + p.packetLength) % UINT_MOD < 2 ^ 31) :
    0 ≤ p.timeoutDelay := by
  unfold ABPSimulator.timeoutDelay ABPSimulator.DATA_FRAME_TRANSMISSION_DELAY
    ABPSimulator.DATA_FRAME_LENGTH
  rw [toInt32_of_lt hD]
  have h1 : (0 : ℚ) ≤ 1000 * ((((p.headerLength + p.packetLength) % UINT_MOD : Nat) : Int) : ℚ)
      / (p.channelCapacity : ℚ) :=
    div_nonneg (mul_nonneg (by norm_num) (by exact_mod_cast Nat.zero_le _)) (Nat.cast_nonneg _)
  linarith

theorem mem_roundTrace_sendAndPush (p : ABPSimulator) (rs : RandSource) (s : SimState) :
    p.sendAndPush rs s ∈ p.roundTrace rs s := by
  unfold ABPSimulator.roundTrace
  simp only
  split_ifs <;> simp

/-- The result of `sendAndPush` when no call of `rand()` it makes yields a bit error. -/
theorem sendAndPush_clean (p : ABPSimulator) (rs : RandSource) (s : SimState)
    (h : ∀ i, s.randCalls ≤ i → i < s.randCalls + p.sentLength + p.headerLength →
      bitError p.bitErrorRate rs i = false) :
    p.sendAndPush rs s =
      { s with
        nextExpectedFrame := if s.nextExpectedFrame = s.sn
          then Nat.xor s.nextExpectedFrame 1 else s.nextExpectedFrame,
        randCalls := s.randCalls + p.sentLength + p.headerLength,
        ackEvents := s.ackEvents ++
          [{ rn := if s.nextExpectedFrame = s.sn
                then Nat.xor s.nextExpectedFrame 1 else s.nextExpectedFrame,
             error := false, time := s.senderCurrentTime + p.roundTrip }] } := by
  unfold ABPSimulator.sendAndPush
  rw [show toUInt32 p.DATA_FRAME_LENGTH = p.sentLength from rfl,
    send_clean p rs s s.senderCurrentTime s.sn p.sentLength h]
  rfl

theorem loopState_one (p : ABPSimulator) (rs : RandSource) (n : Nat) (hn : 0 < n) :
    p.loopState rs n 1 = p.round rs initState := by
  unfold ABPSimulator.loopState
  simp only
  unfold ABPSimulator.loopState
  rw [if_pos (show initState.successPacketsDone < n from hn)]

/-- Without bit errors and with the timeout not later than the acknowledgment, the first
pass of the main loop ends by timeout without a success, and after the second call of
`send` the queue holds the acknowledgments of both calls. -/
theorem late_ack_queue (p : ABPSimulator) (rs : RandSource) (hber : p.bitErrorRate = 0)
    (hT : p.timeoutDelay ≤ p.roundTrip) :
    (p.round rs initState).successPacketsDone = 0 ∧
    (p.round rs initState).senderCurrentTime = p.timeoutDelay ∧
    (p.sendAndPush rs (p.round rs initState)).ackEvents.map ACKEvent.time
      = [p.roundTrip, p.timeoutDelay + p.roundTrip] := by
  have hclean : ∀ s : SimState, ∀ i, s.randCalls ≤ i →
      i < s.randCalls + p.sentLength + p.headerLength →
      bitError p.bitErrorRate rs i = false :=
    fun _ i _ _ => by rw [hber]; exact bitError_zero rs i
  have hto : timesOut (p.timeoutEventTime initState) (p.sendAndPush rs initState) = true := by
    rw [sendAndPush_clean _ _ _ (hclean initState)]
    simp only [timesOut, initState, List.nil_append, decide_eq_true_iff,
      ABPSimulator.timeoutEventTime]
    unfold ABPSimulator.timeoutDelay at hT
    linarith
  have hround : p.round rs initState
      = { p.sendAndPush rs initState with senderCurrentTime := p.timeoutEventTime initState } := by
    unfold ABPSimulator.round ABPSimulator.race
    rw [if_pos hto]
  have htime : p.timeoutEventTime initState = p.timeoutDelay := by
    simp only [ABPSimulator.timeoutEventTime, ABPSimulator.timeoutDelay, initState]
    ring
  refine ⟨?_, ?_, ?_⟩
  · rw [hround]
    exact (sendAndPush_frame p rs initState).2.2.2
  · rw [hround]
    exact htime
  · rw [sendAndPush_clean _ _ _ (hclean _), hround, htime,
      sendAndPush_clean _ _ _ (hclean initState)]
    simp only [initState, List.nil_append, List.map_cons, List.map_nil, List.cons_append,
      zero_add]

/-- C2 (failing run): with a data frame of `2 ^ 31` bits the timeout delay is negative;
the first pass ends by timeout at a negative time, and after the second call of `send`
the pending queue holds the arrival times 2157.483656 ms and 1010.000008 ms, in this
order, although capacity, propagation delay and timeout satisfy the stated bounds. -/
theorem C2_overflow_run :
    (0 < overflowParams.channelCapacity ∧ 0 ≤ overflowParams.propagationDelay ∧
      0 ≤ overflowParams.timeoutTime) ∧
    overflowParams.Reachable rsZero 1
      (overflowParams.sendAndPush rsZero (overflowParams.round rsZero initState)) ∧
    (overflowParams.sendAndPush rsZero
        (overflowParams.round rsZero initState)).ackEvents.map ACKEvent.time
      = [269685457 / 125000, 126250001 / 125000] ∧
    ((126250001 : ℚ) / 125000 < 269685457 / 125000) := by
  have hrt : overflowParams.roundTrip = 269685457 / 125000 := by decide!
  have htd : overflowParams.timeoutDelay = -17929432 / 15625 := by decide!
  obtain ⟨h1, -, h3⟩ := late_ack_queue overflowParams rsZero rfl
    (by rw [hrt, htd]; norm_num)
  refine ⟨by decide!, ⟨1, Or.inr ⟨?_, ?_⟩⟩, ?_, by norm_num⟩
  · rw [loopState_one overflowParams rsZero 1 (by decide), h1]
    decide
  · rw [loopState_one overflowParams rsZero 1 (by decide)]
    exact mem_roundTrace_sendAndPush _ _ _
  · rw [h3, hrt, htd]
    norm_num

/-! ## Bit error rate 1 -/

theorem bitError_one_of_lt (rs : RandSource) (pos : Nat)
    (h : rs.rand pos < rs.RAND_MAX) : bitError 1 rs pos = true := by
  unfold bitError
  rw [decide_eq_true_iff, div_lt_one (by exact_mod_cast (by omega : 0 < rs.RAND_MAX))]
  exact_mod_cast h

theorem bitError_one_of_eq (rs : RandSource) (pos : Nat) (h0 : 0 < rs.RAND_MAX)
    (h : rs.rand pos = rs.RAND_MAX) : bitError 1 rs pos = false := by
  unfold bitError
  rw [decide_eq_false_iff_not, h, div_self (by exact_mod_cast (by omega : rs.RAND_MAX ≠ 0))]
  exact lt_irrefl 1

/-- When every call yields a bit error, a per-bit loop with enough passes left returns
`NULL` at the call that brings the count to five. -/
theorem errorLoop_all_errors (ber : ℚ) (rs : RandSource) (n : Nat) :
    ∀ pos errorBits, errorBits < 5 → 5 - errorBits ≤ n →
      (∀ i, pos ≤ i → i < pos + (5 - errorBits) → bitError ber rs i = true) →
      errorLoop ber rs n pos errorBits = (none, pos + (5 - errorBits)) := by
  induction n with
  | zero => intro pos errorBits h1 h2 _; omega
  | succ n ih =>
    intro pos errorBits h1 h2 h
    unfold errorLoop
    rw [h pos (le_refl _) (by omega), if_pos rfl]
    by_cases h5 : errorBits + 1 = 5
    · rw [if_pos h5]
      congr 1
      omega
    · rw [if_neg h5, ih (pos + 1) (errorBits + 1) (by omega) (by omega)
        (fun i h3 h4 => h i (by omega) (by omega))]
      congr 1
      omega

/-- With bit error rate 1, a data frame of at least 5 bits and draws that are all below
`RAND_MAX`, `send` returns `NULL` after five calls of `rand()` and changes nothing else. -/
theorem send_total_loss (p : ABPSimulator) (rs : RandSource) (s : SimState) (t : ℚ)
    (sn d : Nat) (hber : p.bitErrorRate = 1) (hd : 5 ≤ d)
    (hr : ∀ i, rs.rand i < rs.RAND_MAX) :
    p.send rs s t sn d = (none, { s with randCalls := s.randCalls + 5 }) := by
  apply send_lost_data
  rw [hber]
  exact errorLoop_all_errors 1 rs d s.randCalls 0 (by omega) (by omega)
    (fun i _ _ => bitError_one_of_lt rs i (hr i))

/-- C5 (failing run): with bit error rate 1 and a data frame of 88 bits, when every call
of `rand()` returns `RAND_MAX` the draw `rand() / RAND_MAX` is 1, no bit is in error, and
`send` returns an event and toggles `nextExpectedFrame`. -/
theorem C5_rand_max_run :
    lossParams.bitErrorRate = 1 ∧ 5 ≤ toUInt32 lossParams.DATA_FRAME_LENGTH ∧
    rsMax.Valid ∧
    lossParams.send rsMax initState 0 0 (toUInt32 lossParams.DATA_FRAME_LENGTH)
      = (some { rn := 1, error := false, time := 106 },
         { initState with nextExpectedFrame := 1, randCalls := 96 }) :=
  ⟨rfl, by decide!, ⟨by decide, fun _ => le_refl _⟩, by decide!⟩

/-- A pass of the main loop that starts with an empty queue and whose `send` returns
`NULL` takes the timeout branch: only the current time (and the receiver side touched by
`send`) changes. -/
theorem round_of_lost (p : ABPSimulator) (rs : RandSource) (s : SimState)
    (h : (p.send rs s s.senderCurrentTime s.sn (toUInt32 p.DATA_FRAME_LENGTH)).1 = none)
    (hq : s.ackEvents = []) :
    timesOut (p.timeoutEventTime s) (p.sendAndPush rs s) = true ∧
    (p.round rs s).sn = s.sn ∧ (p.round rs s).nextExpectedAck = s.nextExpectedAck ∧
    (p.round rs s).successPacketsDone = s.successPacketsDone ∧
    (p.round rs s).ackEvents = [] ∧
    (p.round rs s).senderCurrentTime = s.senderCurrentTime + p.timeoutDelay := by
  have hf := send_frame p rs s s.senderCurrentTime s.sn (toUInt32 p.DATA_FRAME_LENGTH)
  have hsp : p.sendAndPush rs s
      = (p.send rs s s.senderCurrentTime s.sn (toUInt32 p.DATA_FRAME_LENGTH)).2 := by
    unfold ABPSimulator.sendAndPush
    rcases hsend : p.send rs s s.senderCurrentTime s.sn (toUInt32 p.DATA_FRAME_LENGTH)
      with ⟨_ | e, s1⟩
    · rfl
    · rw [hsend] at h
      simp at h
  have hto : timesOut (p.timeoutEventTime s) (p.sendAndPush rs s) = true := by
    unfold timesOut
    rw [hsp, hf.2.2.2.2, hq]
  refine ⟨hto, ?_⟩
  unfold ABPSimulator.round ABPSimulator.race
  rw [if_pos hto, hsp]
  refine ⟨hf.1, hf.2.1, hf.2.2.2.1, ?_, ?_⟩
  · show (p.send rs s s.senderCurrentTime s.sn (toUInt32 p.DATA_FRAME_LENGTH)).2.ackEvents = []
    rw [hf.2.2.2.2, hq]
  · show p.timeoutEventTime s = _
    unfold ABPSimulator.timeoutEventTime ABPSimulator.timeoutDelay
    ring

/-- Total loss: when every call of `send` returns `NULL`, after `k` passes of the main
loop (target at least 1) the sender is in its initial protocol state with an empty queue,
the pass that follows takes the timeout branch, and the current time is `k` timeout
delays. -/
theorem total_loss_loopState (p : ABPSimulator) (rs : RandSource) (n : Nat) (hn : 1 ≤ n)
    (hloss : ∀ s : SimState,
      (p.send rs s s.senderCurrentTime s.sn (toUInt32 p.DATA_FRAME_LENGTH)).1 = none) :
    ∀ k, (p.loopState rs n k).successPacketsDone = 0 ∧ (p.loopState rs n k).sn = 0 ∧
      (p.loopState rs n k).nextExpectedAck = 1 ∧ (p.loopState rs n k).ackEvents = [] ∧
      (p.loopState rs n k).senderCurrentTime = (k : ℚ) * p.timeoutDelay ∧
      timesOut (p.timeoutEventTime (p.loopState rs n k))
        (p.sendAndPush rs (p.loopState rs n k)) = true := by
  have main : ∀ k, (p.loopState rs n k).successPacketsDone = 0 ∧
      (p.loopState rs n k).sn = 0 ∧
      (p.loopState rs n k).nextExpectedAck = 1 ∧ (p.loopState rs n k).ackEvents = [] ∧
      (p.loopState rs n k).senderCurrentTime = (k : ℚ) * p.timeoutDelay := by
    intro k
    induction k with
    | zero => simp [ABPSimulator.loopState, initState]
    | succ k ih =>
      obtain ⟨h1, h2, h3, h4, h5⟩ := ih
      obtain ⟨-, r2, r3, r4, r5, r6⟩ := round_of_lost p rs _ (hloss (p.loopState rs n k)) h4
      have hstep : p.loopState rs n (k + 1) = p.round rs (p.loopState rs n k) := by
        conv_lhs => unfold ABPSimulator.loopState
        simp only
        rw [if_pos (by omega)]
      rw [hstep, r2, r3, r4, r5, r6, h1, h2, h3, h5]
      refine ⟨rfl, rfl, rfl, rfl, ?_⟩
      push_cast
      ring
  intro k
  obtain ⟨h1, h2, h3, h4, h5⟩ := main k
  exact ⟨h1, h2, h3, h4, h5, (round_of_lost p rs _ (hloss _) h4).1⟩

/-- Total loss: the main loop never leaves, whatever the fuel. -/
theorem total_loss_mainLoop (p : ABPSimulator) (rs : RandSource) (n : Nat) (hn : 1 ≤ n)
    (hloss : ∀ s : SimState,
      (p.send rs s s.senderCurrentTime s.sn (toUInt32 p.DATA_FRAME_LENGTH)).1 = none) :
    ∀ fuel s, s.successPacketsDone = 0 → s.ackEvents = [] →
      p.mainLoop rs n fuel s = none := by
  intro fuel
  induction fuel with
  | zero =>
    intro s h0 _
    unfold ABPSimulator.mainLoop
    rw [if_pos (by omega)]
  | succ fuel ih =>
    intro s h0 hq
    obtain ⟨-, -, -, r4, r5, -⟩ := round_of_lost p rs s (hloss s) hq
    unfold ABPSimulator.mainLoop
    rw [if_pos (by omega), ih _ (by rw [r4, h0]) r5]
    rfl

/-- C6 (failing run): with bit error rate 1, every draw 0 and a data frame of `2 ^ 31`
bits every call of `send` returns `NULL`, and after one pass of the main loop the current
time is -1147.483648 ms, whereas `1000 * (header + packet) / capacity + timeout` is
3147.483648 ms. -/
theorem C6_overflow_run :
    (∀ s : SimState, (lossOverflowParams.send rsZero s s.senderCurrentTime s.sn
        (toUInt32 lossOverflowParams.DATA_FRAME_LENGTH)).1 = none) ∧
    (lossOverflowParams.loopState rsZero 1 1).senderCurrentTime = -17929432 / 15625 ∧
    (1 : ℚ) * (1000 * ((lossOverflowParams.headerLength : ℚ) + lossOverflowParams.packetLength)
        / lossOverflowParams.channelCapacity + lossOverflowParams.timeoutTime)
      = 49179432 / 15625 := by
  have hloss : ∀ s : SimState, (lossOverflowParams.send rsZero s s.senderCurrentTime s.sn
      (toUInt32 lossOverflowParams.DATA_FRAME_LENGTH)).1 = none := by
    intro s
    rw [send_total_loss lossOverflowParams rsZero s _ _ _ rfl (by decide!)
      (fun _ => (by decide : (0 : Nat) < 32767))]
  refine ⟨hloss, ?_, by decide!⟩
  rw [(total_loss_loopState lossOverflowParams rsZero 1 (le_refl _) hloss 1).2.2.2.2.1]
  decide!

/-! ## The two acknowledgment modes -/

theorem loopState_succ (p : ABPSimulator) (rs : RandSource) (n k : Nat) :
    p.loopState rs n (k + 1) =
      if (p.loopState rs n k).successPacketsDone < n then p.round rs (p.loopState rs n k)
      else p.loopState rs n k := by
  conv_lhs => unfold ABPSimulator.loopState

/-- Every sequence of outcomes of the per-bit test is produced by some generator, for a
bit error rate in `(0, 1]`: the statements made for every generator hold whatever the
outcomes of the comparisons of lines 41 and 59 are. -/
theorem bitError_any_outcome (ber : ℚ) (h0 : 0 < ber) (h1 : ber ≤ 1) (b : Nat → Bool) :
    ∃ rs : RandSource, rs.Valid ∧ ∀ i, bitError ber rs i = b i := by
  refine ⟨{ RAND_MAX := 1, rand := fun i => if b i = true then 0 else 1 },
    ⟨Nat.one_pos, fun i => ?_⟩, fun i => ?_⟩
  · show (if b i = true then 0 else 1) ≤ 1
    split_ifs <;> omega
  · unfold bitError
    show decide ((((if b i = true then 0 else 1 : ℕ) : ℚ) / ((1 : ℕ) : ℚ)) < ber) = b i
    cases b i
    · rw [if_neg (by decide), decide_eq_false_iff_not, not_lt]
      norm_num
      exact h1
    · rw [if_pos rfl, decide_eq_true_eq]
      norm_num
      exact h0

theorem xor_one_ne (n : Nat) : Nat.xor n 1 ≠ n := by
  intro h
  have h1 : n ^^^ 1 = n := h
  have h2 : n ^^^ (n ^^^ 1) = n ^^^ n := congrArg (fun x => n ^^^ x) h1
  rw [← Nat.xor_assoc, Nat.xor_self, Nat.zero_xor] at h2
  exact absurd h2 (by decide)

/-- The receiver's `nextExpectedFrame` after `send`, in terms of the outcome of the
per-bit loop on the data frame. -/
theorem send_receiver (p : ABPSimulator) (rs : RandSource) (s : SimState) (t : ℚ)
    (sn d : Nat) :
    (p.send rs s t sn d).2.nextExpectedFrame =
      if (errorLoop p.bitErrorRate rs d s.randCalls 0).1 = some 0 ∧ s.nextExpectedFrame = sn
      then Nat.xor s.nextExpectedFrame 1 else s.nextExpectedFrame := by
  rcases h1 : errorLoop p.bitErrorRate rs d s.randCalls 0 with ⟨_ | de, pos⟩
  · rw [send_lost_data p rs s t sn d pos h1]
    simp
  · rcases h2 : errorLoop p.bitErrorRate rs p.headerLength pos 0 with ⟨_ | ae, pos2⟩
    · rw [send_lost_ack p rs s t sn d de pos pos2 h1 h2]
      simp
    · rw [send_delivered p rs s t sn d de pos ae pos2 h1 h2]
      simp

/-- C8: `send` toggles the receiver's `nextExpectedFrame` exactly when the per-bit loop on
the data frame ends with zero errors and `sn` equals `nextExpectedFrame` at the call; in
every other case (frame lost, 1 to 4 errors, or clean with another `sn`) it is unchanged,
whatever the draws of the acknowledgment frame; a toggled value differs from the old one. -/
theorem C8_receiver_toggle (p : ABPSimulator) (rs : RandSource) (s : SimState) (t : ℚ)
    (sn d : Nat) :
    (p.send rs s t sn d).2.nextExpectedFrame =
      (if (errorLoop p.bitErrorRate rs d s.randCalls 0).1 = some 0 ∧ s.nextExpectedFrame = sn
       then Nat.xor s.nextExpectedFrame 1 else s.nextExpectedFrame) ∧
    Nat.xor s.nextExpectedFrame 1 ≠ s.nextExpectedFrame :=
  ⟨send_receiver p rs s t sn d, xor_one_ne _⟩

/-! ## Successes per pass -/

/-- A pass of the inner loop does not touch the receiver or the generator. -/
theorem drainBody_receiver (p : ABPSimulator) (deadline : ℚ) (e : ACKEvent)
    (rest : List ACKEvent) (s : SimState) :
    (p.drainBody deadline e rest s).1.nextExpectedFrame = s.nextExpectedFrame ∧
      (p.drainBody deadline e rest s).1.randCalls = s.randCalls := by
  unfold ABPSimulator.drainBody
  by_cases h1 : e.time ≥ deadline
  · rw [if_pos h1]
    exact ⟨rfl, rfl⟩
  · rw [if_neg h1]
    cases hacc : accepts e s <;> cases hnak : p.ackNak <;> cases hr : rest.isEmpty <;>
      simp [advanceSender]

/-- The inner loop accepts at most one acknowledgment: either the sender's protocol
variables are unchanged, or each is advanced once. The receiver and the generator are
untouched. -/
theorem drainLoop_sender (p : ABPSimulator) (deadline : ℚ) (q : List ACKEvent) :
    ∀ s, ((p.drainLoop deadline q s).nextExpectedFrame = s.nextExpectedFrame ∧
        (p.drainLoop deadline q s).randCalls = s.randCalls) ∧
      (((p.drainLoop deadline q s).sn = s.sn ∧
          (p.drainLoop deadline q s).nextExpectedAck = s.nextExpectedAck ∧
          (p.drainLoop deadline q s).successPacketsDone = s.successPacketsDone) ∨
        ((p.drainLoop deadline q s).sn = Nat.xor s.sn 1 ∧
          (p.drainLoop deadline q s).nextExpectedAck = Nat.xor s.nextExpectedAck 1 ∧
          (p.drainLoop deadline q s).successPacketsDone
            = (s.successPacketsDone + 1) % UINT_MOD)) := by
  induction q with
  | nil => intro s; exact ⟨⟨rfl, rfl⟩, Or.inl ⟨rfl, rfl, rfl⟩⟩
  | cons e rest ih =>
    intro s
    have hr := drainBody_receiver p deadline e rest s
    have hs := drainBody_sender p deadline e rest s
    unfold ABPSimulator.drainLoop
    split
    · rename_i s2 heq
      rw [heq] at hr hs
      refine ⟨hr, ?_⟩
      rcases hs with ⟨a, b, c, -⟩ | ⟨-, -, -, -, a, b, c⟩
      · exact Or.inl ⟨a, b, c⟩
      · exact Or.inr ⟨a, b, c⟩
    · rename_i s2 heq
      rw [heq] at hr hs
      rcases hs with ⟨a, b, c, -⟩ | ⟨-, -, hflag, -⟩
      · obtain ⟨⟨i1, i2⟩, i3⟩ := ih s2
        simp only at hr a b c
        rw [a, b, c, hr.1, hr.2] at *
        exact ⟨⟨i1, i2⟩, i3⟩
      · simp at hflag

/-- A pass of the main loop accepts at most one acknowledgment; the receiver changes only
through `send`. -/
theorem round_sender (p : ABPSimulator) (rs : RandSource) (s : SimState) :
    (p.round rs s).nextExpectedFrame
        = (p.send rs s s.senderCurrentTime s.sn
            (toUInt32 p.DATA_FRAME_LENGTH)).2.nextExpectedFrame ∧
      (((p.round rs s).sn = s.sn ∧ (p.round rs s).nextExpectedAck = s.nextExpectedAck ∧
          (p.round rs s).successPacketsDone = s.successPacketsDone) ∨
        ((p.round rs s).sn = Nat.xor s.sn 1 ∧
          (p.round rs s).nextExpectedAck = Nat.xor s.nextExpectedAck 1 ∧
          (p.round rs s).successPacketsDone = (s.successPacketsDone + 1) % UINT_MOD)) := by
  obtain ⟨f1, f2, -, f4⟩ := sendAndPush_frame p rs s
  have hnef : (p.sendAndPush rs s).nextExpectedFrame
      = (p.send rs s s.senderCurrentTime s.sn
          (toUInt32 p.DATA_FRAME_LENGTH)).2.nextExpectedFrame := by
    unfold ABPSimulator.sendAndPush
    split <;> rename_i heq <;> rw [heq]
  unfold ABPSimulator.round ABPSimulator.race
  split_ifs
  · exact ⟨hnef, Or.inl ⟨f1, f2, f4⟩⟩
  · obtain ⟨⟨i1, -⟩, i3⟩ := drainLoop_sender p (p.timeoutEventTime s)
      (p.sendAndPush rs s).ackEvents (p.sendAndPush rs s)
    rw [f1, f2, f4] at i3
    exact ⟨by rw [i1, hnef], i3⟩

/-- C9 (as stated, refuted): in the scenario with a timeout of 0 ms and no bit errors, the
second pass of the main loop sends a data frame that is delivered clean with `sn = 0`
while the receiver expects 1, and the success count goes from 0 to 1 in that pass. -/
theorem C9_counterexample :
    (errorLoop shortTimeoutParams.bitErrorRate rsZero
        (toUInt32 shortTimeoutParams.DATA_FRAME_LENGTH)
        (shortTimeoutParams.round rsZero initState).randCalls 0).1 = some 0 ∧
    (shortTimeoutParams.round rsZero initState).sn = 0 ∧
    (shortTimeoutParams.round rsZero initState).nextExpectedFrame = 1 ∧
    (shortTimeoutParams.round rsZero initState).successPacketsDone = 0 ∧
    (shortTimeoutParams.round rsZero
      (shortTimeoutParams.round rsZero initState)).successPacketsDone = 1 ∧
    (shortTimeoutParams.round rsZero
      (shortTimeoutParams.round rsZero initState)).nextExpectedFrame = 1 := by
  decide!

/-! ## The result of `simulate` -/

/-- When the main loop is left, the success count is the target. -/
theorem mainLoop_done (p : ABPSimulator) (rs : RandSource) (n : Nat) (hn : n < UINT_MOD) :
    ∀ fuel s r, s.successPacketsDone ≤ n → p.mainLoop rs n fuel s = some r →
      r.1.successPacketsDone = n := by
  intro fuel
  induction fuel with
  | zero =>
    intro s r hle h
    unfold ABPSimulator.mainLoop at h
    split_ifs at h with hlt
    simp only [Option.some.injEq] at h
    rw [← h]
    simp only
    omega
  | succ fuel ih =>
    intro s r hle h
    unfold ABPSimulator.mainLoop at h
    split_ifs at h with hlt
    · rw [Option.map_eq_some'] at h
      obtain ⟨r1, h1, h2⟩ := h
      rw [← h2]
      refine ih (p.round rs s) r1 ?_ h1
      rcases (round_sender p rs s).2 with ⟨-, -, c⟩ | ⟨-, -, c⟩
      · rw [c]; exact hle
      · rw [c, Nat.mod_eq_of_lt (by omega)]
        omega
    · simp only [Option.some.injEq] at h
      rw [← h]
      simp only
      omega

/-- The value returned by `simulate` is the throughput of the final state of the main
loop. -/
theorem simulate_eq (p : ABPSimulator) (rs : RandSource) (n fuel : Nat) (r : SimState × Nat)
    (h : p.mainLoop rs n fuel initState = some r) :
    p.simulate rs n fuel = some (p.throughput r.1) := by
  unfold ABPSimulator.simulate
  rw [h]
  rfl

/-- C10 (failing run): for 65536 packets of 65536 bits without bit errors, `simulate`
terminates after 65536 passes with success count 65536 and 4296671232 ms elapsed, and
returns the throughput 0, because `successPacketsDone * packetLength` wraps around to 0;
the quotient 65536 * 65536 / (4296671232 / 1000) is 32768000/32781 (about 999.6). -/
theorem C10_overflow_run (rs : RandSource) (extra : Nat) :
    (bigPacketParams.mainLoop rs 65536 (65536 + extra) initState).map
        (fun r => (r.1.successPacketsDone, r.1.senderCurrentTime, r.2))
      = some (65536, 4296671232, 65536) ∧
    bigPacketParams.simulate rs 65536 (65536 + extra) = some 0 ∧
    ((65536 : ℚ) * (bigPacketParams.packetLength : ℚ)) / (4296671232 / 1000)
      = 32768000 / 32781 := by
  have hrt : bigPacketParams.roundTrip = 65562 := by decide!
  have hto : bigPacketParams.timeoutDelay = 66544 := by decide!
  have h := mainLoop_zeroErr bigPacketParams rs 65536 extra rfl
    (by rw [hrt, hto]; norm_num) (by decide) 65536 0 rfl
  rw [zeroErrState_zero] at h
  refine ⟨?_, ?_, ?_⟩
  · rw [h]
    simp only [Option.map_some', zeroErrState, hrt]
    norm_num
  · rw [simulate_eq _ _ _ _ _ h]
    simp only [ABPSimulator.throughput, zeroErrState, bigPacketParams, scenarioParams, UINT_MOD]
    norm_num
  · simp only [bigPacketParams, scenarioParams]
    norm_num

/-! ## Construction -/

theorem bitError_nonpos (ber : ℚ) (h : ber ≤ 0) (rs : RandSource) (pos : Nat) :
    bitError ber rs pos = false := by
  unfold bitError
  rw [decide_eq_false_iff_not, not_lt]
  exact le_trans h (div_nonneg (Nat.cast_nonneg _) (Nat.cast_nonneg _))

theorem bitError_above_one (ber : ℚ) (h : 1 < ber) (rs : RandSource) (hrs : rs.Valid)
    (pos : Nat) : bitError ber rs pos = true := by
  unfold bitError
  rw [decide_eq_true_iff]
  have h0 : (0 : ℚ) < (rs.RAND_MAX : ℚ) := by exact_mod_cast hrs.1
  have h1 : (rs.rand pos : ℚ) ≤ (rs.RAND_MAX : ℚ) := by exact_mod_cast hrs.2 pos
  have h2 : (rs.rand pos : ℚ) / (rs.RAND_MAX : ℚ) ≤ 1 := (div_le_one h0).mpr h1
  linarith

/-- With a bit error rate of at most 0 and the acknowledgment ahead of the timeout, one
pass of the main loop accepts the acknowledgment of the frame it sent. -/
theorem round_nonposErr (p : ABPSimulator) (rs : RandSource) (k : Nat)
    (hber : p.bitErrorRate ≤ 0) (hrace : p.roundTrip < p.timeoutDelay)
    (hk : k + 1 < UINT_MOD) :
    p.round rs (zeroErrState p k) = zeroErrState p (k + 1) := by
  have hsend := send_clean p rs (zeroErrState p k) (zeroErrState p k).senderCurrentTime
    (zeroErrState p k).sn p.sentLength (fun i _ _ => bitError_nonpos _ hber rs i)
  have hlt : ¬ ((k : ℚ) * p.roundTrip + p.roundTrip
      ≥ (k : ℚ) * p.roundTrip + p.DATA_FRAME_TRANSMISSION_DELAY + p.timeoutTime) := by
    unfold ABPSimulator.timeoutDelay at hrace
    rw [not_le]; linarith
  unfold ABPSimulator.round ABPSimulator.sendAndPush
  rw [show toUInt32 p.DATA_FRAME_LENGTH = p.sentLength from rfl, hsend]
  simp only [zeroErrState, if_true, List.nil_append, ABPSimulator.race, timesOut,
    ABPSimulator.timeoutEventTime, ABPSimulator.roundTrip] at hlt ⊢
  rw [decide_eq_false hlt]
  simp only [Bool.false_eq_true, if_false, ABPSimulator.drainLoop, ABPSimulator.drainBody,
    if_neg hlt, accepts, xor_mod_two, beq_self_eq_true, Bool.not_false, Bool.and_self,
    Bool.true_or, if_true, advanceSender, Nat.mod_eq_of_lt hk]
  have h2 : (k + 1 + 1) % 2 = k % 2 := by omega
  simp only [h2, SimState.mk.injEq, true_and, and_true, Nat.add_mod_mod]
  refine ⟨?_, ?_⟩
  · push_cast; ring
  · ring

theorem mainLoop_nonposErr (p : ABPSimulator) (rs : RandSource) (n extra : Nat)
    (hber : p.bitErrorRate ≤ 0) (hrace : p.roundTrip < p.timeoutDelay)
    (hn : n < UINT_MOD) :
    ∀ j k, k + j = n →
      p.mainLoop rs n (j + extra) (zeroErrState p k) = some (zeroErrState p n, j) := by
  intro j
  induction j with
  | zero =>
    intro k hk
    simp only [Nat.add_zero] at hk
    subst hk
    cases extra <;> simp [ABPSimulator.mainLoop, zeroErrState]
  | succ j ih =>
    intro k hk
    have hlt : (zeroErrState p k).successPacketsDone < n := by
      simp only [zeroErrState]; omega
    rw [show j + 1 + extra = (j + extra) + 1 by omega]
    unfold ABPSimulator.mainLoop
    rw [if_pos hlt, round_nonposErr p rs k hber hrace (by omega), ih (k + 1) (by omega)]
    rfl

theorem loopState_nonposErr (p : ABPSimulator) (rs : RandSource) (n : Nat)
    (hber : p.bitErrorRate ≤ 0) (hrace : p.roundTrip < p.timeoutDelay)
    (hn : n < UINT_MOD) :
    ∀ k, k ≤ n → p.loopState rs n k = zeroErrState p k := by
  intro k
  induction k with
  | zero => intro _; exact (zeroErrState_zero p).symm
  | succ k ih =>
    intro hk
    rw [loopState_succ, ih (by omega)]
    have hlt : (zeroErrState p k).successPacketsDone < n := by
      simp only [zeroErrState]; omega
    rw [if_pos hlt, round_nonposErr p rs k hber hrace (by omega)]

/-- A run with a bit error rate of at most 0, whole delays, the acknowledgment ahead of
the timeout and a target `n < 2 ^ 32` whose `n` timeout delays stay below `2 ^ 53` ms:
the main loop is left after `n` passes, with `n` round trips elapsed, and every pass
computes only whole numbers of milliseconds below `2 ^ 53`. -/
theorem run_nonposErr (p : ABPSimulator) (rs : RandSource) (n extra : Nat)
    (hber : p.bitErrorRate ≤ 0) (hrace : p.roundTrip < p.timeoutDelay) (hw : p.WholeMs)
    (hn : n < UINT_MOD) (hb : (n : ℚ) * p.timeoutDelay < 2 ^ 53) :
    p.mainLoop rs n (n + extra) initState
        = some ({ sn := n % 2, nextExpectedAck := (n + 1) % 2, nextExpectedFrame := n % 2,
                  senderCurrentTime := (n : ℚ) * p.roundTrip, successPacketsDone := n,
                  ackEvents := [],
                  randCalls := n * (p.sentLength + p.headerLength) }, n) ∧
      ∀ k, k < n → p.ExactRound (p.loopState rs n k) := by
  refine ⟨?_, fun k hk => ?_⟩
  · have h := mainLoop_nonposErr p rs n extra hber hrace hn n 0 (by omega)
    rw [zeroErrState_zero] at h
    exact h
  · rw [loopState_nonposErr p rs n hber hrace hn k (by omega)]
    exact exactRound_zeroErr p n k hw hrace hk hb

/-- With a bit error rate above 1, a data frame of at least 5 bits and a valid generator,
`send` returns `NULL`. -/
theorem send_above_one (p : ABPSimulator) (rs : RandSource) (hrs : rs.Valid)
    (hber : 1 < p.bitErrorRate) (hd : 5 ≤ toUInt32 p.DATA_FRAME_LENGTH) (s : SimState) :
    (p.send rs s s.senderCurrentTime s.sn (toUInt32 p.DATA_FRAME_LENGTH)).1 = none := by
  rw [send_lost_data p rs s _ _ _ (s.randCalls + 5)
    (errorLoop_all_errors _ rs _ s.randCalls 0 (by omega) (by omega)
      (fun i _ _ => bitError_above_one _ hber rs hrs i))]

/-- C11 (as stated, refuted): the constructor returns an instance, not an error, for a
channel capacity of 0, for a bit error rate of 2, for a header length of 0 and for a
packet length of 0 with a bit error rate of -1; the last instance is simulated and
returns the throughput 0. -/
theorem C11_counterexample :
    ABPSimulator.construct false 8 80 1000 0 5 0
      = Except.ok { ackNak := false, headerLength := 8, packetLength := 80,
                    timeoutTime := 1000, channelCapacity := 0, propagationDelay := 5,
                    bitErrorRate := 0 } ∧
    ABPSimulator.construct false 8 80 1000 1000 5 2
      = Except.ok { ackNak := false, headerLength := 8, packetLength := 80,
                    timeoutTime := 1000, channelCapacity := 1000, propagationDelay := 5,
                    bitErrorRate := 2 } ∧
    ABPSimulator.construct false 0 80 1000 1000 5 0
      = Except.ok { ackNak := false, headerLength := 0, packetLength := 80,
                    timeoutTime := 1000, channelCapacity := 1000, propagationDelay := 5,
                    bitErrorRate := 0 } ∧
    ABPSimulator.construct false 8 0 1000 1000 5 (-1)
      = Except.ok { ackNak := false, headerLength := 8, packetLength := 0,
                    timeoutTime := 1000, channelCapacity := 1000, propagationDelay := 5,
                    bitErrorRate := -1 } ∧
    (ABPSimulator.construct false 8 0 1000 1000 5 (-1)).toOption.bind
      (fun p => p.simulate rsZero 1 1) = some 0 :=
  ⟨rfl, rfl, rfl, rfl, by decide!⟩

/-- C11 (amended): the constructor validates nothing. For all arguments it returns an
instance whose fields are the arguments, never an error. Instances with an invalid
configuration and a positive capacity are simulated, for every ack mode, every valid
generator and every target `1 ≤ N < 2 ^ 32`: with a packet length of 0 and a bit error
rate of -1 (8 header bits, 1000 bps, 5 ms, timeout 1000 ms) the main loop is left after
`N` passes at `26 * N` ms and `simulate` returns 0; with a header length of 0 (80 packet
bits, no bit errors) the main loop is left after `N` passes at `90 * N` ms; in both runs
every operand and result of the additions of lines 107 and 70 is a whole number below
`2 ^ 53`; with a bit error rate of 2 (8 header bits, 80 packet bits) every frame is lost
and `simulate` does not return, whatever the fuel. -/
theorem C11_constructor_total (ackNak : Bool) (headerLength packetLength : Nat)
    (timeoutTime : ℚ) (channelCapacity : Nat) (propagationDelay bitErrorRate : ℚ)
    (rs : RandSource) (n extra fuel : Nat) (hrs : rs.Valid) (hn1 : 1 ≤ n)
    (hn : n < 2 ^ 32) :
    ABPSimulator.construct ackNak headerLength packetLength timeoutTime channelCapacity
        propagationDelay bitErrorRate
      = Except.ok { ackNak := ackNak, headerLength := headerLength,
                    packetLength := packetLength, timeoutTime := timeoutTime,
                    channelCapacity := channelCapacity,
                    propagationDelay := propagationDelay, bitErrorRate := bitErrorRate } ∧
    (∃ p, ABPSimulator.construct ackNak 8 0 1000 1000 5 (-1) = Except.ok p ∧
      (∀ k, k < n → p.ExactRound (p.loopState rs n k)) ∧
      (p.mainLoop rs n (n + extra) initState).map
          (fun r => (r.1.successPacketsDone, r.1.senderCurrentTime, r.2))
        = some (n, 26 * (n : ℚ), n) ∧
      p.simulate rs n (n + extra) = some 0) ∧
    (∃ p, ABPSimulator.construct ackNak 0 80 1000 1000 5 0 = Except.ok p ∧
      (∀ k, k < n → p.ExactRound (p.loopState rs n k)) ∧
      (p.mainLoop rs n (n + extra) initState).map
          (fun r => (r.1.successPacketsDone, r.1.senderCurrentTime, r.2))
        = some (n, 90 * (n : ℚ), n)) ∧
    (∃ p, ABPSimulator.construct ackNak 8 80 1000 1000 5 2 = Except.ok p ∧
      p.simulate rs n fuel = none) := by
  have hU : n < UINT_MOD := by unfold UINT_MOD; omega
  have hnq : (n : ℚ) < 2 ^ 32 := by exact_mod_cast hn
  refine ⟨rfl, ⟨_, rfl, ?_⟩, ⟨_, rfl, ?_⟩, ⟨_, rfl, ?_⟩⟩
  · have hA : ∀ a : Bool, (ABPSimulator.mk a 8 0 1000 1000 5 (-1)).roundTrip = 26 := by
      intro a; cases a <;> decide!
    have hT : ∀ a : Bool, (ABPSimulator.mk a 8 0 1000 1000 5 (-1)).timeoutDelay = 1008 := by
      intro a; cases a <;> decide!
    have hw : ∀ a : Bool, (ABPSimulator.mk a 8 0 1000 1000 5 (-1)).WholeMs := by
      intro a
      cases a <;>
        exact ⟨by decide, ⟨8, by decide!⟩, ⟨16, by decide!⟩, ⟨10, by decide!⟩, ⟨1000, by decide!⟩⟩
    obtain ⟨h1, h2⟩ := run_nonposErr _ rs n extra
      (show (-1 : ℚ) ≤ 0 by norm_num) (by rw [hA, hT]; norm_num) (hw ackNak) hU
      (by rw [hT]; linarith)
    refine ⟨h2, ?_, ?_⟩
    · rw [h1, hA]
      simp only [Option.map_some']
      rw [mul_comm]
    · unfold ABPSimulator.simulate
      rw [h1]
      simp [ABPSimulator.throughput]
  · have hA : ∀ a : Bool, (ABPSimulator.mk a 0 80 1000 1000 5 0).roundTrip = 90 := by
      intro a; cases a <;> decide!
    have hT : ∀ a : Bool, (ABPSimulator.mk a 0 80 1000 1000 5 0).timeoutDelay = 1080 := by
      intro a; cases a <;> decide!
    have hw : ∀ a : Bool, (ABPSimulator.mk a 0 80 1000 1000 5 0).WholeMs := by
      intro a
      cases a <;>
        exact ⟨by decide, ⟨80, by decide!⟩, ⟨80, by decide!⟩, ⟨10, by decide!⟩, ⟨1000, by decide!⟩⟩
    obtain ⟨h1, h2⟩ := run_nonposErr _ rs n extra
      (le_refl (0 : ℚ)) (by rw [hA, hT]; norm_num) (hw ackNak) hU
      (by rw [hT]; linarith)
    refine ⟨h2, ?_⟩
    rw [h1, hA]
    simp only [Option.map_some']
    rw [mul_comm]
  · unfold ABPSimulator.simulate
    rw [total_loss_mainLoop _ rs n hn1
      (fun s => send_above_one _ rs hrs (show (1 : ℚ) < 2 by norm_num)
        (by cases ackNak <;> decide!) s) fuel initState rfl rfl]
    rfl

theorem C11_constructor_total_witness :
    ABPSimulator.construct true 8 80 1000 0 5 0
      = Except.ok { ackNak := true, headerLength := 8, packetLength := 80,
                    timeoutTime := 1000, channelCapacity := 0, propagationDelay := 5,
                    bitErrorRate := 0 } ∧
    ∃ p, ABPSimulator.construct true 8 80 1000 1000 5 2 = Except.ok p ∧
      p.simulate rsZero 2 7 = none :=
  have h := C11_constructor_total true 8 80 1000 0 5 0 rsZero 2 0 7
    ⟨by decide, fun _ => Nat.zero_le _⟩ (by decide) (by decide)
  ⟨h.1, h.2.2.2⟩

/-! ## The receiver's expectation and the last accepted frame -/

/-- The states inside a pass of the inner loop have the receiver state of its start. -/
theorem drainTrace_receiver (p : ABPSimulator) (deadline : ℚ) (q : List ACKEvent) :
    ∀ s, ∀ s1 ∈ p.drainTrace deadline q s, s1.nextExpectedFrame = s.nextExpectedFrame := by
  induction q with
  | nil => intro s s1 hs1; simp [ABPSimulator.drainTrace] at hs1
  | cons e rest ih =>
    intro s s1 hs1
    have hb := (drainBody_receiver p deadline e rest s).1
    unfold ABPSimulator.drainTrace at hs1
    split at hs1
    · rename_i s2 heq
      rw [heq] at hb
      simp only [List.mem_singleton] at hs1
      rw [hs1]; exact hb
    · rename_i s2 heq
      rw [heq] at hb
      rcases List.mem_cons.mp hs1 with h | h
      · rw [h]; exact hb
      · rw [ih s2 s1 h]; exact hb

/-- Every state inside a pass of the main loop has the receiver state reached by the
call of `send` of that pass. -/
theorem roundTrace_receiver (p : ABPSimulator) (rs : RandSource) (s : SimState) :
    ∀ s1 ∈ p.roundTrace rs s,
      s1.nextExpectedFrame = (p.sendAndPush rs s).nextExpectedFrame := by
  intro s1 hs1
  unfold ABPSimulator.roundTrace at hs1
  simp only at hs1
  split_ifs at hs1
  · simp only [List.mem_cons, List.mem_singleton, List.not_mem_nil, or_false] at hs1
    rcases hs1 with h | h <;> rw [h]
  · rcases List.mem_cons.mp hs1 with h | h
    · rw [h]
    · exact drainTrace_receiver p _ _ _ s1 h

theorem round_receiver (p : ABPSimulator) (rs : RandSource) (s : SimState) :
    (p.round rs s).nextExpectedFrame = (p.sendAndPush rs s).nextExpectedFrame := by
  unfold ABPSimulator.round ABPSimulator.race
  split_ifs
  · rfl
  · exact (drainLoop_sender p _ _ _).1.1

theorem sendAndPush_receiver (p : ABPSimulator) (rs : RandSource) (s : SimState) :
    (p.sendAndPush rs s).nextExpectedFrame =
      if (errorLoop p.bitErrorRate rs (toUInt32 p.DATA_FRAME_LENGTH) s.randCalls 0).1 = some 0
          ∧ s.nextExpectedFrame = s.sn
      then Nat.xor s.nextExpectedFrame 1 else s.nextExpectedFrame := by
  rw [← send_receiver p rs s s.senderCurrentTime s.sn (toUInt32 p.DATA_FRAME_LENGTH)]
  unfold ABPSimulator.sendAndPush
  split <;> rename_i heq <;> rw [heq]

/-- After `k` passes, `nextExpectedFrame` is the toggled sequence number of the last
accepted frame. -/
theorem lastAccepted_loopState (p : ABPSimulator) (rs : RandSource) (n : Nat) :
    ∀ k a, p.lastAcceptedSn rs n k = some a →
      (p.loopState rs n k).nextExpectedFrame = Nat.xor a 1 := by
  intro k
  induction k with
  | zero => intro a h; simp [ABPSimulator.lastAcceptedSn] at h
  | succ k ih =>
    intro a h
    unfold ABPSimulator.lastAcceptedSn at h
    rw [loopState_succ]
    split_ifs at h with hc
    · obtain ⟨hlt, hne⟩ := hc
      rw [if_pos hlt, round_receiver]
      rw [sendAndPush_receiver] at hne ⊢
      split_ifs at hne ⊢ with hcond
      · simp only [Option.some.injEq] at h
        rw [← h, hcond.2]
      · exact absurd rfl hne
    · by_cases hlt : (p.loopState rs n k).successPacketsDone < n
      · rw [if_pos hlt, round_receiver]
        have : (p.sendAndPush rs (p.loopState rs n k)).nextExpectedFrame
            = (p.loopState rs n k).nextExpectedFrame := by
          by_contra hne
          exact hc ⟨hlt, hne⟩
        rw [this]
        exact ih a h
      · rw [if_neg hlt]
        exact ih a h

/-- C12 (as stated, refuted): in the concrete scenario, after the first pass of the main
loop the last frame the receiver accepted has `sn = 0` and `nextExpectedFrame` is 1. -/
theorem C12_counterexample :
    scenarioParams.lastAcceptedSn rsZero 1 1 = some 0 ∧
    (scenarioParams.loopState rsZero 1 1).nextExpectedFrame = 1 ∧
    (scenarioParams.loopState rsZero 1 1).nextExpectedFrame ≠ 0 := by
  decide!

/-- C12 (amended): at every state reachable by `simulate` once the receiver has accepted
a frame, `nextExpectedFrame` is the toggled sequence number (`sn xor 1`, not `sn`) of the
last frame the receiver accepted: at the main loop condition after `k` passes, and in
every state inside the pass that follows. -/
theorem C12_receiver_expectation (p : ABPSimulator) (rs : RandSource)
    (successPackets k a : Nat) :
    (p.lastAcceptedSn rs successPackets k = some a →
      (p.loopState rs successPackets k).nextExpectedFrame = Nat.xor a 1 ∧
      (p.loopState rs successPackets k).nextExpectedFrame ≠ a) ∧
    (p.lastAcceptedSn rs successPackets (k + 1) = some a →
      (p.loopState rs successPackets k).successPacketsDone < successPackets →
      ∀ s ∈ p.roundTrace rs (p.loopState rs successPackets k),
        s.nextExpectedFrame = Nat.xor a 1 ∧ s.nextExpectedFrame ≠ a) := by
  constructor
  · intro h
    have h1 := lastAccepted_loopState p rs successPackets k a h
    exact ⟨h1, by rw [h1]; exact xor_one_ne a⟩
  · intro h hlt s hs
    have h1 := lastAccepted_loopState p rs successPackets (k + 1) a h
    rw [loopState_succ, if_pos hlt, round_receiver] at h1
    rw [roundTrace_receiver p rs _ s hs]
    exact ⟨h1, by rw [h1]; exact xor_one_ne a⟩

theorem C12_receiver_expectation_witness :
    scenarioParams.lastAcceptedSn rsZero 1 1 = some 0 ∧
    (scenarioParams.loopState rsZero 1 1).nextExpectedFrame = Nat.xor 0 1 ∧
    (scenarioParams.sendAndPush rsZero (scenarioParams.loopState rsZero 1 0)).nextExpectedFrame
      = Nat.xor 0 1 :=
  ⟨by decide!,
    ((C12_receiver_expectation scenarioParams rsZero 1 1 0).1 (by decide!)).1,
    ((C12_receiver_expectation scenarioParams rsZero 1 0 0).2 (by decide!) (by decide!)
      _ (mem_roundTrace_sendAndPush _ _ _)).1⟩

/-! ## The channel error model -/

theorem errCount_zero (ber : ℚ) (rs : RandSource) (pos : Nat) : errCount ber rs pos 0 = 0 := by
  simp [errCount]

theorem errCount_succ (ber : ℚ) (rs : RandSource) (pos n : Nat) :
    errCount ber rs pos (n + 1)
      = (if bitError ber rs pos = true then 1 else 0) + errCount ber rs (pos + 1) n := by
  unfold errCount
  rw [List.range_succ_eq_map, List.countP_cons, List.countP_map]
  have hf : ((fun i => bitError ber rs (pos + i)) ∘ Nat.succ)
      = (fun i => bitError ber rs (pos + 1 + i)) := by
    funext i
    simp only [Function.comp]
    congr 1
    omega
  rw [hf]
  simp only [Nat.add_zero]
  omega

theorem errCount_le (ber : ℚ) (rs : RandSource) (pos n : Nat) : errCount ber rs pos n ≤ n := by
  unfold errCount
  exact le_trans (List.countP_le_length _) (by simp)

/-- The per-bit loop in terms of the error count: with fewer than five errors in all it
runs through its `n` draws and returns the count; otherwise it returns `NULL` right after
the draw that brings the count to five. -/
theorem errorLoop_spec (ber : ℚ) (rs : RandSource) (n : Nat) :
    ∀ pos e, e < 5 →
      (e + errCount ber rs pos n < 5 ∧
        errorLoop ber rs n pos e = (some (e + errCount ber rs pos n), pos + n)) ∨
      (5 ≤ e + errCount ber rs pos n ∧
        ∃ c, c < n ∧ bitError ber rs (pos + c) = true ∧ e + errCount ber rs pos c = 4 ∧
          errorLoop ber rs n pos e = (none, pos + c + 1)) := by
  induction n with
  | zero =>
    intro pos e he
    left
    rw [errCount_zero]
    exact ⟨he, rfl⟩
  | succ n ih =>
    intro pos e he
    rw [errCount_succ]
    unfold errorLoop
    by_cases hb : bitError ber rs pos = true
    · rw [if_pos hb, if_pos hb]
      by_cases h5 : e + 1 = 5
      · rw [if_pos h5]
        right
        refine ⟨by omega, 0, by omega, hb, ?_, rfl⟩
        rw [errCount_zero]
        omega
      · rw [if_neg h5]
        rcases ih (pos + 1) (e + 1) (by omega) with ⟨h1, h2⟩ | ⟨h1, c, hc, hbc, hcnt, h2⟩
        · left
          refine ⟨by omega, ?_⟩
          rw [h2]
          simp only [Prod.mk.injEq, Option.some.injEq]
          constructor <;> omega
        · right
          refine ⟨by omega, c + 1, by omega, ?_, ?_, ?_⟩
          · rw [show pos + (c + 1) = pos + 1 + c by omega]; exact hbc
          · rw [errCount_succ, if_pos hb]; omega
          · rw [h2, show pos + 1 + c + 1 = pos + (c + 1) + 1 by omega]
    · rw [if_neg hb, if_neg hb]
      rcases ih (pos + 1) e he with ⟨h1, h2⟩ | ⟨h1, c, hc, hbc, hcnt, h2⟩
      · left
        refine ⟨by omega, ?_⟩
        rw [h2]
        simp only [Prod.mk.injEq, Option.some.injEq]
        constructor <;> omega
      · right
        refine ⟨by omega, c + 1, by omega, ?_, ?_, ?_⟩
        · rw [show pos + (c + 1) = pos + 1 + c by omega]; exact hbc
        · rw [errCount_succ, if_neg hb]; omega
        · rw [h2, show pos + 1 + c + 1 = pos + (c + 1) + 1 by omega]

/-- The three outcomes of `send` in terms of the error counts of the data frame draws and
of the acknowledgment frame draws. -/
theorem send_spec (p : ABPSimulator) (rs : RandSource) (s : SimState) (t : ℚ) (sn d : Nat) :
    (5 ≤ errCount p.bitErrorRate rs s.randCalls d ∧
      ∃ c, c < d ∧ bitError p.bitErrorRate rs (s.randCalls + c) = true ∧
        errCount p.bitErrorRate rs s.randCalls c = 4 ∧
        p.send rs s t sn d = (none, { s with randCalls := s.randCalls + c + 1 })) ∨
    (errCount p.bitErrorRate rs s.randCalls d < 5 ∧
      5 ≤ errCount p.bitErrorRate rs (s.randCalls + d) p.headerLength ∧
      ∃ c, c < p.headerLength ∧
        bitError p.bitErrorRate rs (s.randCalls + d + c) = true ∧
        errCount p.bitErrorRate rs (s.randCalls + d) c = 4 ∧
        (p.send rs s t sn d).1 = none ∧
        (p.send rs s t sn d).2.randCalls = s.randCalls + d + c + 1) ∨
    (errCount p.bitErrorRate rs s.randCalls d < 5 ∧
      errCount p.bitErrorRate rs (s.randCalls + d) p.headerLength < 5 ∧
      ∃ e, (p.send rs s t sn d).1 = some e ∧
        e.error = decide (0 < errCount p.bitErrorRate rs (s.randCalls + d) p.headerLength) ∧
        e.rn = (p.send rs s t sn d).2.nextExpectedFrame ∧
        e.time = t + ackDelay p d ∧
        (p.send rs s t sn d).2.randCalls = s.randCalls + d + p.headerLength) := by
  rcases errorLoop_spec p.bitErrorRate rs d s.randCalls 0 (by omega) with
    ⟨h1, h2⟩ | ⟨h1, c, hc, hbc, hcnt, h2⟩
  · right
    rw [Nat.zero_add] at h1 h2
    rcases errorLoop_spec p.bitErrorRate rs p.headerLength (s.randCalls + d) 0 (by omega) with
      ⟨k1, k2⟩ | ⟨k1, c, hc, hbc, hcnt, k2⟩
    · right
      rw [Nat.zero_add] at k1 k2
      rw [send_delivered p rs s t sn d _ _ _ _ h2 k2]
      exact ⟨h1, k1, _, rfl, rfl, rfl, rfl, rfl⟩
    · left
      rw [Nat.zero_add] at k1 hcnt
      refine ⟨h1, k1, c, hc, hbc, hcnt, ?_⟩
      rw [send_lost_ack p rs s t sn d _ _ _ h2 k2]
      exact ⟨rfl, rfl⟩
  · left
    rw [Nat.zero_add] at h1 hcnt
    exact ⟨h1, c, hc, hbc, hcnt, send_lost_data p rs s t sn d _ h2⟩

/-- C13: `send` returns `NULL` exactly when at least 5 of the `dataFrameLength` draws of
the data frame are errors, or fewer than 5 of them are and at least 5 of the
`headerLength` draws of the acknowledgment frame are errors. A lost frame consumes the
draws up to and including its fifth error (the draw `c` is an error and exactly 4 errors
precede it), a delivered frame consumes all its draws, and a frame shorter than 5 bits
has fewer than 5 errors. -/
theorem C13_send_null_iff (p : ABPSimulator) (rs : RandSource) (s : SimState) (t : ℚ)
    (sn d : Nat) :
    ((p.send rs s t sn d).1 = none ↔
      (5 ≤ errCount p.bitErrorRate rs s.randCalls d ∨
        (errCount p.bitErrorRate rs s.randCalls d < 5 ∧
          5 ≤ errCount p.bitErrorRate rs (s.randCalls + d) p.headerLength))) ∧
    (5 ≤ errCount p.bitErrorRate rs s.randCalls d →
      ∃ c, c < d ∧ bitError p.bitErrorRate rs (s.randCalls + c) = true ∧
        errCount p.bitErrorRate rs s.randCalls c = 4 ∧
        (p.send rs s t sn d).2.randCalls = s.randCalls + c + 1) ∧
    (errCount p.bitErrorRate rs s.randCalls d < 5 →
      5 ≤ errCount p.bitErrorRate rs (s.randCalls + d) p.headerLength →
      ∃ c, c < p.headerLength ∧ bitError p.bitErrorRate rs (s.randCalls + d + c) = true ∧
        errCount p.bitErrorRate rs (s.randCalls + d) c = 4 ∧
        (p.send rs s t sn d).2.randCalls = s.randCalls + d + c + 1) ∧
    (errCount p.bitErrorRate rs s.randCalls d < 5 →
      errCount p.bitErrorRate rs (s.randCalls + d) p.headerLength < 5 →
      (p.send rs s t sn d).2.randCalls = s.randCalls + d + p.headerLength) ∧
    (d < 5 → errCount p.bitErrorRate rs s.randCalls d < 5) ∧
    (p.headerLength < 5 →
      errCount p.bitErrorRate rs (s.randCalls + d) p.headerLength < 5) := by
  refine ⟨?_, ?_, ?_, ?_, ?_, ?_⟩
  · rcases send_spec p rs s t sn d with ⟨h1, c, -, -, -, h2⟩ |
      ⟨h1, h2, c, -, -, -, h3, -⟩ | ⟨h1, h2, e, h3, -⟩
    · rw [h2]
      exact ⟨fun _ => Or.inl h1, fun _ => rfl⟩
    · exact ⟨fun _ => Or.inr ⟨h1, h2⟩, fun _ => h3⟩
    · rw [h3]
      constructor
      · intro h; simp at h
      · rintro (h | ⟨-, h⟩) <;> omega
  · intro h
    rcases send_spec p rs s t sn d with ⟨-, c, hc, hbc, hcnt, h2⟩ |
      ⟨h1, -⟩ | ⟨h1, -⟩
    · exact ⟨c, hc, hbc, hcnt, by rw [h2]⟩
    · omega
    · omega
  · intro h h5
    rcases send_spec p rs s t sn d with ⟨h1, -⟩ |
      ⟨-, -, c, hc, hbc, hcnt, -, h3⟩ | ⟨-, h2, -⟩
    · omega
    · exact ⟨c, hc, hbc, hcnt, h3⟩
    · omega
  · intro h h5
    rcases send_spec p rs s t sn d with ⟨h1, -⟩ | ⟨-, h2, -⟩ | ⟨-, -, e, -, -, -, -, h3⟩
    · omega
    · omega
    · exact h3
  · intro h
    exact lt_of_le_of_lt (errCount_le _ _ _ _) h
  · intro h
    exact lt_of_le_of_lt (errCount_le _ _ _ _) h

/-- The fields of an event returned by `send`: `rn` is the receiver's `nextExpectedFrame`
after the call, `error` tells whether the acknowledgment frame had 1 to 4 bit errors, and
`time` is the current time plus the delay of line 70. -/
theorem send_event_fields (p : ABPSimulator) (rs : RandSource) (s : SimState) (t : ℚ)
    (sn d : Nat) (e : ACKEvent) (h : (p.send rs s t sn d).1 = some e) :
    e.rn = (p.send rs s t sn d).2.nextExpectedFrame ∧
    (e.error = true ↔
      (1 ≤ errCount p.bitErrorRate rs (s.randCalls + d) p.headerLength ∧
        errCount p.bitErrorRate rs (s.randCalls + d) p.headerLength ≤ 4)) ∧
    e.time = t + ackDelay p d := by
  rcases send_spec p rs s t sn d with ⟨-, c, -, -, -, h2⟩ |
    ⟨-, -, c, -, -, -, h3, -⟩ | ⟨-, h2, e1, h3, h4, h5, h6, -⟩
  · rw [h2] at h; simp at h
  · rw [h3] at h; simp at h
  · rw [h3] at h
    simp only [Option.some.injEq] at h
    subst h
    refine ⟨h5, ?_, h6⟩
    rw [h4, decide_eq_true_iff]
    omega

/-- Without wrap-around of `dataFrameLength + headerLength`, the delay of line 70. -/
theorem ackDelay_eq (p : ABPSimulator) (d : Nat) (h : d + p.headerLength < 2 ^ 32) :
    ackDelay p d = 1000 * ((d : ℚ) + p.headerLength) / p.channelCapacity
      + 2 * p.propagationDelay := by
  unfold ackDelay
  rw [Nat.mod_eq_of_lt (by unfold UINT_MOD; omega)]
  push_cast
  ring

/-- C14 (failing run): with 8 header bits and a data frame of `2 ^ 32 - 8` bits (the
length `simulate` passes for a packet of `2 ^ 32 - 16` bits), `send` called at time 0
returns an event with arrival time 10 ms, because `dataFrameLength + ackFrameLength`
wraps around to 0, whereas
`currentTime + 1000 * (dataFrameLength + headerLength) / capacity + 2 * delay` is
4294967306 ms. -/
theorem C14_wrap_run (rs : RandSource) :
    toUInt32 wrapAckParams.DATA_FRAME_LENGTH = 4294967288 ∧
    (wrapAckParams.send rs initState 0 0 (toUInt32 wrapAckParams.DATA_FRAME_LENGTH)).1
      = some { rn := 1, error := false, time := 10 } ∧
    (0 : ℚ) + 1000 * ((4294967288 : ℚ) + (wrapAckParams.headerLength : ℚ))
        / (wrapAckParams.channelCapacity : ℚ) + 2 * wrapAckParams.propagationDelay
      = 4294967306 := by
  have hd : toUInt32 wrapAckParams.DATA_FRAME_LENGTH = 4294967288 := by decide!
  have hdelay : ackDelay wrapAckParams 4294967288 = 10 := by decide!
  refine ⟨hd, ?_, by decide!⟩
  rw [hd, send_clean wrapAckParams rs initState 0 0 4294967288
    (fun i _ _ => bitError_zero rs i), hdelay]
  simp only [initState, if_true, zero_add]
  rfl

/-! ## Rejected acknowledgments in the two modes -/

/-- The test of line 129 reads only `nextExpectedAck` from the state. -/
theorem accepts_congr (e : ACKEvent) (s s1 : SimState)
    (h : s1.nextExpectedAck = s.nextExpectedAck) : accepts e s1 = accepts e s := by
  unfold accepts
  rw [h]

/-- A pass of the inner loop on a head that arrives before the deadline and fails the
test of line 129, with `ackNak` clear: the head is removed and the loop goes on. -/
theorem drainBody_rejected (p : ABPSimulator) (deadline : ℚ) (e : ACKEvent)
    (rest : List ACKEvent) (s : SimState) (h1 : e.time < deadline)
    (hacc : accepts e s = false) (hnak : p.ackNak = false) :
    p.drainBody deadline e rest s =
      (if rest.isEmpty = true
        then { s with senderCurrentTime := deadline, ackEvents := rest }
        else { s with senderCurrentTime := e.time, ackEvents := rest }, false) := by
  unfold ABPSimulator.drainBody
  rw [if_neg (not_le.mpr h1)]
  simp only [hacc, hnak, Bool.false_eq_true, if_false, Bool.or_self]
  split_ifs <;> rfl

theorem drainLoop_cons_rejected (p : ABPSimulator) (deadline : ℚ) (e : ACKEvent)
    (rest : List ACKEvent) (s : SimState) (h1 : e.time < deadline)
    (hacc : accepts e s = false) (hnak : p.ackNak = false) :
    p.drainLoop deadline (e :: rest) s =
      p.drainLoop deadline rest
        (if rest.isEmpty = true
          then { s with senderCurrentTime := deadline, ackEvents := rest }
          else { s with senderCurrentTime := e.time, ackEvents := rest }) := by
  conv_lhs => unfold ABPSimulator.drainLoop
  rw [drainBody_rejected p deadline e rest s h1 hacc hnak]

/-- A pass of the inner loop on a head that arrives before the deadline and fails the
test of line 129, with `ackNak` set: the head is removed and the loop is left. -/
theorem drainLoop_cons_nak (p : ABPSimulator) (deadline : ℚ) (e : ACKEvent)
    (rest : List ACKEvent) (s : SimState) (h1 : e.time < deadline)
    (hacc : accepts e s = false) (hnak : p.ackNak = true) :
    p.drainLoop deadline (e :: rest) s
      = { s with senderCurrentTime := e.time, ackEvents := rest } := by
  unfold ABPSimulator.drainLoop ABPSimulator.drainBody
  rw [if_neg (not_le.mpr h1)]
  simp only [hacc, hnak, Bool.false_eq_true, if_false, Bool.or_true, if_true]

/-- With `ackNak` clear, when no queued event that arrives before the deadline passes the
test of line 129, the inner loop ends with the sender's protocol variables unchanged and
a tail of the queue left; when the queue was not empty the current time is the
deadline. -/
theorem drainLoop_all_rejected (p : ABPSimulator) (deadline : ℚ) (hnak : p.ackNak = false)
    (q : List ACKEvent) :
    ∀ s, s.ackEvents = q →
      (∀ x ∈ q, x.time < deadline → accepts x s = false) →
      (q ≠ [] → (p.drainLoop deadline q s).senderCurrentTime = deadline) ∧
      (p.drainLoop deadline q s).sn = s.sn ∧
      (p.drainLoop deadline q s).nextExpectedAck = s.nextExpectedAck ∧
      (p.drainLoop deadline q s).successPacketsDone = s.successPacketsDone ∧
      (p.drainLoop deadline q s).ackEvents <:+ q := by
  induction q with
  | nil =>
    intro s hq _
    refine ⟨fun h => absurd rfl h, rfl, rfl, rfl, ?_⟩
    show s.ackEvents <:+ []
    rw [hq]
  | cons e rest ih =>
    intro s hq hrej
    by_cases h1 : e.time ≥ deadline
    · have hb : p.drainLoop deadline (e :: rest) s
          = { s with senderCurrentTime := deadline } := by
        unfold ABPSimulator.drainLoop ABPSimulator.drainBody
        rw [if_pos h1]
      rw [hb]
      refine ⟨fun _ => rfl, rfl, rfl, rfl, ?_⟩
      show s.ackEvents <:+ e :: rest
      rw [hq]
    · have hlt : e.time < deadline := not_le.mp h1
      have hacc : accepts e s = false := hrej e (List.mem_cons_self _ _) hlt
      rw [drainLoop_cons_rejected p deadline e rest s hlt hacc hnak]
      cases rest with
      | nil =>
        rw [if_pos (show ([] : List ACKEvent).isEmpty = true from rfl)]
        exact ⟨fun _ => rfl, rfl, rfl, rfl, List.nil_suffix⟩
      | cons e2 rest2 =>
        rw [if_neg (show ¬ ((e2 :: rest2).isEmpty = true) by simp)]
        obtain ⟨i1, i2, i3, i4, i5⟩ := ih
          { s with senderCurrentTime := e.time, ackEvents := e2 :: rest2 } rfl
          (fun x hx hxlt => hrej x (List.mem_cons_of_mem _ hx) hxlt)
        exact ⟨fun _ => i1 (List.cons_ne_nil _ _), i2, i3, i4,
          i5.trans (List.suffix_cons _ _)⟩

/-- C15: in a pass of the main loop whose queue head (after the call of `send`) arrives
before the timeout deadline and fails the test of line 129 (corrupted, or `rn` different
from `nextExpectedAck`): with `ackNak` set the pass ends with the current time at that
event's arrival time, exactly that event removed, and the sender's protocol variables and
success count unchanged; with `ackNak` clear the event is removed, and if no other queued
event that arrives before the deadline passes the test, the pass ends with the current
time at the deadline, the variables and the count unchanged, and a tail of the remaining
queue left. -/
theorem C15_rejected_head (p : ABPSimulator) (rs : RandSource) (s : SimState)
    (e : ACKEvent) (rest : List ACKEvent)
    (hq : (p.sendAndPush rs s).ackEvents = e :: rest)
    (hlt : e.time < p.timeoutEventTime s)
    (hrej : e.error = true ∨ e.rn ≠ s.nextExpectedAck) :
    (p.ackNak = true →
      p.round rs s = { p.sendAndPush rs s with senderCurrentTime := e.time,
                                               ackEvents := rest } ∧
      (p.round rs s).sn = s.sn ∧ (p.round rs s).nextExpectedAck = s.nextExpectedAck ∧
      (p.round rs s).successPacketsDone = s.successPacketsDone) ∧
    (p.ackNak = false →
      (∀ x ∈ rest, x.time < p.timeoutEventTime s →
        (x.error = true ∨ x.rn ≠ s.nextExpectedAck)) →
      (p.round rs s).senderCurrentTime = p.timeoutEventTime s ∧
      (p.round rs s).sn = s.sn ∧ (p.round rs s).nextExpectedAck = s.nextExpectedAck ∧
      (p.round rs s).successPacketsDone = s.successPacketsDone ∧
      (p.round rs s).ackEvents <:+ rest) := by
  obtain ⟨f1, f2, -, f4⟩ := sendAndPush_frame p rs s
  have hacc : ∀ x : ACKEvent, (x.error = true ∨ x.rn ≠ s.nextExpectedAck) →
      accepts x (p.sendAndPush rs s) = false := by
    intro x hx
    unfold accepts
    rw [f2]
    rcases hx with hx | hx
    · simp [hx]
    · simp [hx]
  have hto : timesOut (p.timeoutEventTime s) (p.sendAndPush rs s) = false := by
    unfold timesOut
    rw [hq]
    simp only [decide_eq_false_iff_not, not_le]
    exact hlt
  have hround : p.round rs s
      = p.drainLoop (p.timeoutEventTime s) (e :: rest) (p.sendAndPush rs s) := by
    unfold ABPSimulator.round ABPSimulator.race
    rw [hto, hq]
    simp
  constructor
  · intro hnak
    have h1 := drainLoop_cons_nak p (p.timeoutEventTime s) e rest (p.sendAndPush rs s) hlt
      (hacc e hrej) hnak
    rw [← hround] at h1
    refine ⟨h1, ?_, ?_, ?_⟩
    · rw [h1]; exact f1
    · rw [h1]; exact f2
    · rw [h1]; exact f4
  · intro hnak hall
    rw [hround, drainLoop_cons_rejected p _ e rest _ hlt (hacc e hrej) hnak]
    cases rest with
    | nil =>
      rw [if_pos (show ([] : List ACKEvent).isEmpty = true from rfl)]
      exact ⟨rfl, f1, f2, f4, List.nil_suffix⟩
    | cons e2 rest2 =>
      rw [if_neg (show ¬ ((e2 :: rest2).isEmpty = true) by simp)]
      obtain ⟨i1, i2, i3, i4, i5⟩ := drainLoop_all_rejected p (p.timeoutEventTime s) hnak
        (e2 :: rest2)
        { p.sendAndPush rs s with senderCurrentTime := e.time, ackEvents := e2 :: rest2 }
        rfl
        (fun x hx hxlt => hacc x (hall x hx hxlt))
      exact ⟨i1 (List.cons_ne_nil _ _), by rw [i2]; exact f1, by rw [i3]; exact f2,
        by rw [i4]; exact f4, i5⟩

theorem C15_rejected_head_witness :
    (({ earlyAckParams with ackNak := true } : ABPSimulator).round rsTwoErrors
        initState).senderCurrentTime = 4 ∧
    (earlyAckParams.round rsTwoErrors initState).senderCurrentTime
      = earlyAckParams.timeoutEventTime initState :=
  ⟨by
    rw [((C15_rejected_head ({ earlyAckParams with ackNak := true } : ABPSimulator)
      rsTwoErrors initState { rn := 0, error := false, time := 4 } []
      (by decide!) (by decide!) (Or.inr (by decide))).1 rfl).1],
   ((C15_rejected_head earlyAckParams rsTwoErrors initState
      { rn := 0, error := false, time := 4 } []
      (by decide!) (by decide!) (Or.inr (by decide))).2 rfl
      (fun x hx => absurd hx (List.not_mem_nil x))).1⟩

/-! ## Acceptance of an acknowledgment -/

/-- The inner loop either removes only events that fail the test of line 129 and leaves
the sender's protocol variables unchanged, or the last event it removes passes the test,
every earlier one fails it, the current time becomes its arrival time and the variables
advance once. Every removed event arrives before the deadline. -/
theorem drainLoop_accept_spec (p : ABPSimulator) (deadline : ℚ) (q : List ACKEvent) :
    ∀ s,
      (∀ x ∈ p.dequeued deadline q s, x.time < deadline) ∧
      (((∀ x ∈ p.dequeued deadline q s, accepts x s = false) ∧
          (p.drainLoop deadline q s).sn = s.sn ∧
          (p.drainLoop deadline q s).nextExpectedAck = s.nextExpectedAck ∧
          (p.drainLoop deadline q s).successPacketsDone = s.successPacketsDone) ∨
        (∃ pre e, p.dequeued deadline q s = pre ++ [e] ∧
          (∀ x ∈ pre, accepts x s = false) ∧ accepts e s = true ∧
          (p.drainLoop deadline q s).senderCurrentTime = e.time ∧
          (p.drainLoop deadline q s).sn = Nat.xor s.sn 1 ∧
          (p.drainLoop deadline q s).nextExpectedAck = Nat.xor s.nextExpectedAck 1 ∧
          (p.drainLoop deadline q s).successPacketsDone
            = (s.successPacketsDone + 1) % UINT_MOD)) := by
  induction q with
  | nil =>
    intro s
    refine ⟨fun x hx => ?_, Or.inl ⟨fun x hx => ?_, rfl, rfl, rfl⟩⟩
    · simp [ABPSimulator.dequeued] at hx
    · simp [ABPSimulator.dequeued] at hx
  | cons e rest ih =>
    intro s
    by_cases h1 : e.time ≥ deadline
    · have hd : p.dequeued deadline (e :: rest) s = [] := by
        unfold ABPSimulator.dequeued
        rw [if_pos h1]
      have hb : p.drainLoop deadline (e :: rest) s
          = { s with senderCurrentTime := deadline } := by
        unfold ABPSimulator.drainLoop ABPSimulator.drainBody
        rw [if_pos h1]
      rw [hd, hb]
      exact ⟨fun x hx => absurd hx (List.not_mem_nil x),
        Or.inl ⟨fun x hx => absurd hx (List.not_mem_nil x), rfl, rfl, rfl⟩⟩
    · have hlt : e.time < deadline := not_le.mp h1
      have hs := drainBody_sender p deadline e rest s
      rcases hb : p.drainBody deadline e rest s with ⟨s1, flag⟩
      rw [hb] at hs
      cases flag with
      | true =>
        have hd : p.dequeued deadline (e :: rest) s = [e] := by
          unfold ABPSimulator.dequeued
          rw [if_neg h1, hb]
        have hl : p.drainLoop deadline (e :: rest) s = s1 := by
          unfold ABPSimulator.drainLoop
          rw [hb]
        rw [hd, hl]
        refine ⟨fun x hx => by rw [List.mem_singleton.mp hx]; exact hlt, ?_⟩
        rcases hs with ⟨a, b, c, hn⟩ | ⟨-, hacc, -, ht, a, b, c⟩
        · left
          refine ⟨fun x hx => ?_, a, b, c⟩
          rw [List.mem_singleton.mp hx]
          by_contra hne
          exact hn ⟨hlt, by simpa using hne⟩
        · right
          exact ⟨[], e, rfl, fun x hx => absurd hx (List.not_mem_nil x), hacc, ht, a, b, c⟩
      | false =>
        have hd : p.dequeued deadline (e :: rest) s = e :: p.dequeued deadline rest s1 := by
          conv_lhs => unfold ABPSimulator.dequeued
          rw [if_neg h1, hb]
        have hl : p.drainLoop deadline (e :: rest) s = p.drainLoop deadline rest s1 := by
          conv_lhs => unfold ABPSimulator.drainLoop
          rw [hb]
        rw [hd, hl]
        rcases hs with ⟨a, b, c, hn⟩ | ⟨-, -, hflag, -⟩
        · simp only at a b c
          have hrej : accepts e s = false := by
            by_contra hne
            exact hn ⟨hlt, by simpa using hne⟩
          obtain ⟨i1, i2⟩ := ih s1
          refine ⟨fun x hx => ?_, ?_⟩
          · rcases List.mem_cons.mp hx with h | h
            · rw [h]; exact hlt
            · exact i1 x h
          · rcases i2 with ⟨j1, j2, j3, j4⟩ | ⟨pre, e0, k1, k2, k3, k4, k5, k6, k7⟩
            · left
              refine ⟨fun x hx => ?_, by rw [j2, a], by rw [j3, b], by rw [j4, c]⟩
              rcases List.mem_cons.mp hx with h | h
              · rw [h]; exact hrej
              · rw [← accepts_congr x s s1 b]; exact j1 x h
            · right
              refine ⟨e :: pre, e0, by rw [k1]; rfl, fun x hx => ?_,
                by rw [← accepts_congr e0 s s1 b]; exact k3, k4,
                by rw [k5, a], by rw [k6, b], by rw [k7, c]⟩
              rcases List.mem_cons.mp hx with h | h
              · rw [h]; exact hrej
              · rw [← accepts_congr x s s1 b]; exact k2 x h
        · simp at hflag

theorem lateInv_sendAndPush (p : ABPSimulator) (rs : RandSource) (s : SimState)
    (h : LateInv p s) : LateInv p (p.sendAndPush rs s) := by
  obtain ⟨-, -, hc, -⟩ := sendAndPush_frame p rs s
  unfold LateInv
  rw [hc]
  rcases sendAndPush_queue p rs s with hq | ⟨e, het, hq⟩
  · rw [hq]; exact h
  · rw [hq]
    intro x hx
    rcases List.mem_append.mp hx with hx | hx
    · exact h x hx
    · rw [List.mem_singleton] at hx
      rw [hx, het]

/-- With a negative timeout delay and a non-negative round trip, a pass of the main loop
takes the timeout branch: the deadline is before every queued event. -/
theorem timesOut_of_negative (p : ABPSimulator) (rs : RandSource) (s : SimState)
    (hA : 0 ≤ p.roundTrip) (hT : p.timeoutDelay < 0) (h : LateInv p s) :
    timesOut (p.timeoutEventTime s) (p.sendAndPush rs s) = true := by
  have h1 := lateInv_sendAndPush p rs s h
  obtain ⟨-, -, hc, -⟩ := sendAndPush_frame p rs s
  unfold LateInv at h1
  unfold timesOut
  split
  · rfl
  · rename_i e rest heq
    rw [decide_eq_true_iff]
    have := h1 e (by rw [heq]; exact List.mem_cons_self _ _)
    rw [hc] at this
    unfold ABPSimulator.timeoutEventTime
    unfold ABPSimulator.timeoutDelay at hT
    show s.senderCurrentTime + p.DATA_FRAME_TRANSMISSION_DELAY + p.timeoutTime ≤ e.time
    linarith

theorem round_of_negative (p : ABPSimulator) (rs : RandSource) (s : SimState)
    (hA : 0 ≤ p.roundTrip) (hT : p.timeoutDelay < 0) (h : LateInv p s) :
    p.round rs s
        = { p.sendAndPush rs s with senderCurrentTime := p.timeoutEventTime s } ∧
      LateInv p (p.round rs s) ∧
      (p.round rs s).successPacketsDone = s.successPacketsDone := by
  have hto := timesOut_of_negative p rs s hA hT h
  have h1 := lateInv_sendAndPush p rs s h
  obtain ⟨-, -, hc, hd⟩ := sendAndPush_frame p rs s
  have hr : p.round rs s
      = { p.sendAndPush rs s with senderCurrentTime := p.timeoutEventTime s } := by
    unfold ABPSimulator.round ABPSimulator.race
    rw [if_pos hto]
  refine ⟨hr, ?_, ?_⟩
  · rw [hr]
    intro x hx
    have := h1 x hx
    rw [hc] at this
    show p.timeoutEventTime s + p.roundTrip ≤ x.time
    unfold ABPSimulator.timeoutEventTime
    unfold ABPSimulator.timeoutDelay at hT
    linarith
  · rw [hr]
    exact hd

theorem lateInv_loopState (p : ABPSimulator) (rs : RandSource) (n : Nat)
    (hA : 0 ≤ p.roundTrip) (hT : p.timeoutDelay < 0) :
    ∀ k, LateInv p (p.loopState rs n k) ∧ (p.loopState rs n k).successPacketsDone = 0 := by
  intro k
  induction k with
  | zero =>
    refine ⟨?_, rfl⟩
    intro x hx
    simp [ABPSimulator.loopState, initState] at hx
  | succ k ih =>
    rw [loopState_succ]
    split_ifs
    · obtain ⟨-, h2, h3⟩ := round_of_negative p rs _ hA hT ih.1
      exact ⟨h2, by rw [h3]; exact ih.2⟩
    · exact ih

/-- With a negative timeout delay and a non-negative round trip, every state of a pass
of the main loop satisfies `LateInv`. -/
theorem lateInv_roundTrace (p : ABPSimulator) (rs : RandSource) (s : SimState)
    (hA : 0 ≤ p.roundTrip) (hT : p.timeoutDelay < 0) (h : LateInv p s) :
    ∀ s1 ∈ p.roundTrace rs s, LateInv p s1 := by
  have hto := timesOut_of_negative p rs s hA hT h
  have h1 := lateInv_sendAndPush p rs s h
  obtain ⟨hr, h2, -⟩ := round_of_negative p rs s hA hT h
  intro s1 hs1
  unfold ABPSimulator.roundTrace at hs1
  simp only [hto, if_true, List.mem_cons, List.mem_singleton, List.not_mem_nil,
    or_false] at hs1
  rcases hs1 with h3 | h3
  · rw [h3]; exact h1
  · rw [h3, ← hr]; exact h2

/-- With a negative timeout delay and a non-negative round trip, the main loop never
leaves when the target is at least 1. -/
theorem mainLoop_of_negative (p : ABPSimulator) (rs : RandSource) (n : Nat) (hn : 1 ≤ n)
    (hA : 0 ≤ p.roundTrip) (hT : p.timeoutDelay < 0) :
    ∀ fuel s, LateInv p s → s.successPacketsDone = 0 → p.mainLoop rs n fuel s = none := by
  intro fuel
  induction fuel with
  | zero =>
    intro s _ h0
    unfold ABPSimulator.mainLoop
    rw [if_pos (by omega)]
  | succ fuel ih =>
    intro s h h0
    obtain ⟨-, h2, h3⟩ := round_of_negative p rs s hA hT h
    unfold ABPSimulator.mainLoop
    rw [if_pos (by omega), ih _ h2 (by rw [h3, h0])]
    rfl

/-- C17: for every parameter set with positive capacity and non-negative propagation
delay and timeout, every draw sequence and every reachable state (in particular at the
start of every pass of the main loop and after every removal in the drain loop), every
event in the pending queue arrives no earlier than the sender's current time. -/
theorem C17_no_event_in_the_past (p : ABPSimulator) (rs : RandSource)
    (successPackets : Nat) (s : SimState)
    (_hC : 0 < p.channelCapacity) (hτ : 0 ≤ p.propagationDelay)
    (_hΔ : 0 ≤ p.timeoutTime) (h : p.Reachable rs successPackets s) :
    ∀ e ∈ s.ackEvents, s.senderCurrentTime ≤ e.time := by
  have hA := roundTrip_nonneg p hτ
  by_cases hT : 0 ≤ p.timeoutDelay
  · intro e he
    exact ((timeInv_reachable p rs successPackets s hA hT h).2 e he).1
  · rw [not_le] at hT
    have hl : LateInv p s := by
      obtain ⟨k, hk | ⟨-, hk⟩⟩ := h
      · rw [hk]; exact (lateInv_loopState p rs successPackets hA hT k).1
      · exact lateInv_roundTrace p rs _ hA hT
          (lateInv_loopState p rs successPackets hA hT k).1 s hk
    intro e he
    have := hl e he
    linarith

theorem C17_no_event_in_the_past_witness :
    (shortTimeoutParams.sendAndPush rsZero
        (shortTimeoutParams.loopState rsZero 2 1)).ackEvents
      = [{ rn := 1, error := false, time := 106 }, { rn := 1, error := false, time := 194 }] ∧
    (shortTimeoutParams.sendAndPush rsZero
        (shortTimeoutParams.loopState rsZero 2 1)).senderCurrentTime
      ≤ (({ rn := 1, error := false, time := 194 } : ACKEvent)).time :=
  ⟨by decide!,
    C17_no_event_in_the_past shortTimeoutParams rsZero 2 _ (by decide) (by decide!)
      (by decide!) ⟨1, Or.inr ⟨by decide!, mem_roundTrace_sendAndPush _ _ _⟩⟩
      { rn := 1, error := false, time := 194 } (by decide!)⟩

/-! ## Protocol safety -/

/-- The result of one pass of the inner loop, case by case. -/
theorem drainBody_eq (p : ABPSimulator) (deadline : ℚ) (e : ACKEvent)
    (rest : List ACKEvent) (s : SimState) :
    p.drainBody deadline e rest s =
      if e.time ≥ deadline then ({ s with senderCurrentTime := deadline }, true)
      else if accepts e s = true then
        ({ advanceSender s with senderCurrentTime := e.time, ackEvents := rest }, true)
      else if p.ackNak = true then
        ({ s with senderCurrentTime := e.time, ackEvents := rest }, true)
      else if rest.isEmpty = true then
        ({ s with senderCurrentTime := deadline, ackEvents := rest }, false)
      else ({ s with senderCurrentTime := e.time, ackEvents := rest }, false) := by
  unfold ABPSimulator.drainBody
  by_cases h1 : e.time ≥ deadline
  · rw [if_pos h1, if_pos h1]
  · rw [if_neg h1, if_neg h1]
    cases hacc : accepts e s <;> cases hnak : p.ackNak <;> cases hr : rest.isEmpty <;> simp

theorem safeInv_init : SafeInv initState 0 := by
  refine ⟨seqInv_init, Or.inl rfl, ⟨[], [], rfl, ?_, ?_⟩, rfl⟩
  · intro e he; exact absurd he (List.not_mem_nil e)
  · intro e he; exact absurd he (List.not_mem_nil e)

/-- The safety invariant reads only the protocol variables, the success count and the
queue. -/
theorem safeInv_congr (s s1 : SimState) (d : Nat) (h1 : s1.sn = s.sn)
    (h2 : s1.nextExpectedAck = s.nextExpectedAck)
    (h3 : s1.nextExpectedFrame = s.nextExpectedFrame)
    (h4 : s1.successPacketsDone = s.successPacketsDone) (h5 : s1.ackEvents = s.ackEvents)
    (h : SafeInv s d) : SafeInv s1 d := by
  unfold SafeInv SeqInv QueuePattern at *
  rw [h1, h2, h3, h4, h5]
  exact h

/-- The queue after `sendAndPush`: unchanged, or one event more at the tail, carrying
the receiver's `nextExpectedFrame` after the call. -/
theorem sendAndPush_queue_rn (p : ABPSimulator) (rs : RandSource) (s : SimState) :
    (p.sendAndPush rs s).ackEvents = s.ackEvents ∨
    ∃ e : ACKEvent, e.rn = (p.sendAndPush rs s).nextExpectedFrame ∧
      (p.sendAndPush rs s).ackEvents = s.ackEvents ++ [e] := by
  have hf := send_frame p rs s s.senderCurrentTime s.sn (toUInt32 p.DATA_FRAME_LENGTH)
  have he := send_event p rs s s.senderCurrentTime s.sn (toUInt32 p.DATA_FRAME_LENGTH)
  unfold ABPSimulator.sendAndPush
  split
  · rename_i e s1 heq
    rw [heq] at hf
    right
    refine ⟨e, (he e s1 heq).2, ?_⟩
    show s1.ackEvents ++ [e] = s.ackEvents ++ [e]
    rw [show s1.ackEvents = s.ackEvents from hf.2.2.2.2]
  · rename_i s1 heq
    rw [heq] at hf
    left
    exact hf.2.2.2.2

theorem xor_one_bit (n : Nat) (h : n = 0 ∨ n = 1) :
    (Nat.xor n 1 = 0 ∨ Nat.xor n 1 = 1) ∧ Nat.xor n 1 = 1 - n := by
  rcases h with h | h <;> rw [h] <;> decide

/-- The call of `send` and the push keep the safety invariant, with one more accepted
frame exactly when `nextExpectedFrame` is toggled. -/
theorem safeInv_sendAndPush (p : ABPSimulator) (rs : RandSource) (s : SimState) (d : Nat)
    (h : SafeInv s d) :
    SafeInv (p.sendAndPush rs s)
      (d + if (p.sendAndPush rs s).nextExpectedFrame ≠ s.nextExpectedFrame then 1 else 0) := by
  obtain ⟨hseq, hnef, ⟨a, b, hq, ha, hb⟩, hd⟩ := h
  obtain ⟨f1, f2, -, f4⟩ := sendAndPush_frame p rs s
  have hr := sendAndPush_receiver p rs s
  have hqueue := sendAndPush_queue_rn p rs s
  have hseq1 : SeqInv (p.sendAndPush rs s) := seqInv_sendAndPush p rs s hseq
  by_cases hc : (errorLoop p.bitErrorRate rs (toUInt32 p.DATA_FRAME_LENGTH) s.randCalls 0).1
      = some 0 ∧ s.nextExpectedFrame = s.sn
  · rw [if_pos hc] at hr
    have hne : (p.sendAndPush rs s).nextExpectedFrame ≠ s.nextExpectedFrame := by
      rw [hr]; exact xor_one_ne _
    have hne2 : (p.sendAndPush rs s).nextExpectedFrame ≠ (p.sendAndPush rs s).sn := by
      rw [f1, ← hc.2]; exact hne
    rw [if_pos hne]
    refine ⟨hseq1, by rw [hr]; exact (xor_one_bit _ hnef).1, ?_, ?_⟩
    · have hall : ∀ e ∈ s.ackEvents, e.rn = (p.sendAndPush rs s).sn := by
        intro e he
        rw [hq] at he
        rw [f1]
        rcases List.mem_append.mp he with h1 | h1
        · exact ha e h1
        · rw [hb e h1, hc.2]
      rcases hqueue with hq1 | ⟨e, he, hq1⟩
      · exact ⟨s.ackEvents, [], by rw [hq1, List.append_nil], hall,
          fun x hx => absurd hx (List.not_mem_nil x)⟩
      · exact ⟨s.ackEvents, [e], hq1, hall,
          fun x hx => by rw [List.mem_singleton.mp hx]; exact he⟩
    · rw [f4, if_neg hne2, hd, if_pos hc.2]
  · rw [if_neg hc] at hr
    rw [if_neg (not_not.mpr hr), Nat.add_zero]
    refine ⟨hseq1, by rw [hr]; exact hnef, ?_, by rw [f4, f1, hr]; exact hd⟩
    rcases hqueue with hq1 | ⟨e, he, hq1⟩
    · exact ⟨a, b, by rw [hq1]; exact hq, by rw [f1]; exact ha, by rw [hr]; exact hb⟩
    · refine ⟨a, b ++ [e], by rw [hq1, hq, List.append_assoc], by rw [f1]; exact ha, ?_⟩
      intro x hx
      rcases List.mem_append.mp hx with h1 | h1
      · rw [hr]; exact hb x h1
      · rw [List.mem_singleton.mp h1, he]

/-- Removing the head of the queue keeps the safety invariant. -/
theorem safeInv_pop (s s1 : SimState) (d : Nat) (e : ACKEvent) (rest : List ACKEvent)
    (hq : s.ackEvents = e :: rest) (h1 : s1.sn = s.sn)
    (h2 : s1.nextExpectedAck = s.nextExpectedAck)
    (h3 : s1.nextExpectedFrame = s.nextExpectedFrame)
    (h4 : s1.successPacketsDone = s.successPacketsDone) (h5 : s1.ackEvents = rest)
    (h : SafeInv s d) : SafeInv s1 d := by
  obtain ⟨hseq, hnef, ⟨a, b, hab, ha, hb⟩, hd⟩ := h
  refine ⟨?_, by rw [h3]; exact hnef, ?_, by rw [h4, h3, h1]; exact hd⟩
  · unfold SeqInv at *
    rw [h1, h2]; exact hseq
  · rw [hq] at hab
    unfold QueuePattern
    rw [h1, h3, h5]
    cases a with
    | nil =>
      rw [List.nil_append] at hab
      refine ⟨[], rest, rfl, fun x hx => absurd hx (List.not_mem_nil x), ?_⟩
      intro x hx
      exact hb x (by rw [← hab]; exact List.mem_cons_of_mem _ hx)
    | cons x a1 =>
      rw [List.cons_append, List.cons.injEq] at hab
      exact ⟨a1, b, hab.2, fun y hy => ha y (List.mem_cons_of_mem _ hy), hb⟩

/-- Accepting the head of the queue (lines 129-134 and 140-143) keeps the safety
invariant: the accepted acknowledgment was sent after the receiver took the frame. -/
theorem safeInv_accept (s : SimState) (d : Nat) (e : ACKEvent) (rest : List ACKEvent)
    (t : ℚ) (hq : s.ackEvents = e :: rest) (hacc : accepts e s = true)
    (hdone : s.successPacketsDone + 1 < UINT_MOD) (h : SafeInv s d) :
    SafeInv { advanceSender s with senderCurrentTime := t, ackEvents := rest } d := by
  obtain ⟨⟨hsn, hnea, hcomp⟩, hnef, ⟨a, b, hab, ha, hb⟩, hd⟩ := h
  have hrn : e.rn = s.nextExpectedAck := by
    unfold accepts at hacc
    simp only [Bool.and_eq_true, beq_iff_eq] at hacc
    exact hacc.1
  have hne : s.nextExpectedAck ≠ s.sn := by
    rcases hsn with h0 | h0 <;> rw [h0] at hcomp <;> rw [hcomp, h0] <;> decide
  rw [hq] at hab
  have hbq : b = e :: rest := by
    cases a with
    | nil => rw [List.nil_append] at hab; exact hab.symm
    | cons x a1 =>
      rw [List.cons_append, List.cons.injEq] at hab
      have := ha x (List.mem_cons_self _ _)
      rw [← hab.1, hrn] at this
      exact absurd this hne
  have hnefa : s.nextExpectedFrame = s.nextExpectedAck := by
    rw [← hrn]
    exact (hb e (by rw [hbq]; exact List.mem_cons_self _ _)).symm
  have hxsn : Nat.xor s.sn 1 = s.nextExpectedAck := by
    rw [(xor_one_bit _ hsn).2, hcomp]
  refine ⟨⟨?_, ?_, ?_⟩, hnef, ⟨rest, [], ?_, ?_, ?_⟩, ?_⟩
  · exact (xor_one_bit _ hsn).1
  · exact (xor_one_bit _ hnea).1
  · show Nat.xor s.nextExpectedAck 1 = 1 - Nat.xor s.sn 1
    rcases hsn with h0 | h0 <;> rw [h0] at hcomp <;> rw [hcomp, h0] <;> decide
  · show rest = rest ++ []
    rw [List.append_nil]
  · intro x hx
    show x.rn = Nat.xor s.sn 1
    rw [hxsn, ← hnefa]
    exact hb x (by rw [hbq]; exact List.mem_cons_of_mem _ hx)
  · intro x hx; exact absurd hx (List.not_mem_nil x)
  · show d = (s.successPacketsDone + 1) % UINT_MOD
      + (if s.nextExpectedFrame = Nat.xor s.sn 1 then 0 else 1)
    rw [hxsn, if_pos hnefa, Nat.mod_eq_of_lt hdone, hd, if_neg (by rw [hnefa]; exact hne)]

/-- One pass of the inner loop keeps the safety invariant. -/
theorem safeInv_drainBody (p : ABPSimulator) (deadline : ℚ) (e : ACKEvent)
    (rest : List ACKEvent) (s : SimState) (d : Nat) (hq : s.ackEvents = e :: rest)
    (hdone : s.successPacketsDone + 1 < UINT_MOD) (h : SafeInv s d) :
    SafeInv (p.drainBody deadline e rest s).1 d := by
  rw [drainBody_eq]
  split_ifs with h1 h2 h3 h4
  · exact safeInv_congr s _ d rfl rfl rfl rfl rfl h
  · exact safeInv_accept s d e rest e.time hq h2 hdone h
  · exact safeInv_pop s _ d e rest hq rfl rfl rfl rfl rfl h
  · exact safeInv_pop s _ d e rest hq rfl rfl rfl rfl rfl h
  · exact safeInv_pop s _ d e rest hq rfl rfl rfl rfl rfl h

/-- A pass of the inner loop that does not leave the loop removes the head of the queue
and keeps the success count. -/
theorem drainBody_continue (p : ABPSimulator) (deadline : ℚ) (e : ACKEvent)
    (rest : List ACKEvent) (s : SimState)
    (h : (p.drainBody deadline e rest s).2 = false) :
    (p.drainBody deadline e rest s).1.ackEvents = rest ∧
      (p.drainBody deadline e rest s).1.successPacketsDone = s.successPacketsDone := by
  rw [drainBody_eq] at h ⊢
  split_ifs at h ⊢ with h1 h2 h3 h4
  · exact ⟨rfl, rfl⟩
  · exact ⟨rfl, rfl⟩

theorem safeInv_drainTrace (p : ABPSimulator) (deadline : ℚ) (d : Nat)
    (q : List ACKEvent) :
    ∀ s, s.ackEvents = q → s.successPacketsDone + 1 < UINT_MOD → SafeInv s d →
      ∀ s1 ∈ p.drainTrace deadline q s, SafeInv s1 d := by
  induction q with
  | nil => intro s _ _ _ s1 hs1; simp [ABPSimulator.drainTrace] at hs1
  | cons e rest ih =>
    intro s hq hdone h s1 hs1
    have hb := safeInv_drainBody p deadline e rest s d hq hdone h
    have hcont := drainBody_continue p deadline e rest s
    unfold ABPSimulator.drainTrace at hs1
    split at hs1
    · rename_i s2 heq
      rw [heq] at hb
      simp only [List.mem_singleton] at hs1
      rw [hs1]; exact hb
    · rename_i s2 heq
      rw [heq] at hb hcont
      rcases List.mem_cons.mp hs1 with h1 | h1
      · rw [h1]; exact hb
      · obtain ⟨c1, c2⟩ := hcont rfl
        exact ih s2 c1 (by rw [c2]; exact hdone) hb s1 h1

theorem safeInv_drainLoop (p : ABPSimulator) (deadline : ℚ) (d : Nat)
    (q : List ACKEvent) :
    ∀ s, s.ackEvents = q → s.successPacketsDone + 1 < UINT_MOD → SafeInv s d →
      SafeInv (p.drainLoop deadline q s) d := by
  induction q with
  | nil => intro s _ _ h; exact h
  | cons e rest ih =>
    intro s hq hdone h
    have hb := safeInv_drainBody p deadline e rest s d hq hdone h
    have hcont := drainBody_continue p deadline e rest s
    unfold ABPSimulator.drainLoop
    split
    · rename_i s2 heq
      rw [heq] at hb
      exact hb
    · rename_i s2 heq
      rw [heq] at hb hcont
      obtain ⟨c1, c2⟩ := hcont rfl
      exact ih s2 c1 (by rw [c2]; exact hdone) hb

/-- A pass of the main loop run under the loop condition keeps the safety invariant, in
its final state and in every state it goes through. -/
theorem safeInv_round (p : ABPSimulator) (rs : RandSource) (s : SimState) (d : Nat)
    (hdone : s.successPacketsDone + 1 < UINT_MOD) (h : SafeInv s d) :
    SafeInv (p.round rs s)
        (d + if (p.sendAndPush rs s).nextExpectedFrame ≠ s.nextExpectedFrame then 1 else 0) ∧
      ∀ s1 ∈ p.roundTrace rs s, SafeInv s1
        (d + if (p.sendAndPush rs s).nextExpectedFrame ≠ s.nextExpectedFrame
          then 1 else 0) := by
  have h1 := safeInv_sendAndPush p rs s d h
  obtain ⟨-, -, -, f4⟩ := sendAndPush_frame p rs s
  have hdone1 : (p.sendAndPush rs s).successPacketsDone + 1 < UINT_MOD := by
    rw [f4]; exact hdone
  generalize (d + if (p.sendAndPush rs s).nextExpectedFrame ≠ s.nextExpectedFrame
    then 1 else 0) = d1 at h1 ⊢
  constructor
  · unfold ABPSimulator.round ABPSimulator.race
    split_ifs
    · exact safeInv_congr _ _ _ rfl rfl rfl rfl rfl h1
    · exact safeInv_drainLoop p _ _ _ _ rfl hdone1 h1
  · intro s1 hs1
    unfold ABPSimulator.roundTrace at hs1
    simp only at hs1
    split_ifs at hs1
    · simp only [List.mem_cons, List.mem_singleton, List.not_mem_nil, or_false] at hs1
      rcases hs1 with h2 | h2
      · rw [h2]; exact h1
      · rw [h2]; exact safeInv_congr _ _ _ rfl rfl rfl rfl rfl h1
    · rcases List.mem_cons.mp hs1 with h2 | h2
      · rw [h2]; exact h1
      · exact safeInv_drainTrace p _ _ _ _ rfl hdone1 h1 s1 h2

theorem delivered_succ (p : ABPSimulator) (rs : RandSource) (n k : Nat) :
    p.delivered rs n (k + 1) = p.delivered rs n k +
      (if (p.loopState rs n k).successPacketsDone < n ∧
          (p.sendAndPush rs (p.loopState rs n k)).nextExpectedFrame
            ≠ (p.loopState rs n k).nextExpectedFrame
       then 1 else 0) := by
  conv_lhs => unfold ABPSimulator.delivered

theorem safeInv_loopState (p : ABPSimulator) (rs : RandSource) (n : Nat)
    (hn : n < UINT_MOD) :
    ∀ k, SafeInv (p.loopState rs n k) (p.delivered rs n k) := by
  intro k
  induction k with
  | zero => exact safeInv_init
  | succ k ih =>
    rw [loopState_succ, delivered_succ]
    by_cases hlt : (p.loopState rs n k).successPacketsDone < n
    · rw [if_pos hlt]
      have := (safeInv_round p rs _ _ (by omega) ih).1
      by_cases htog : (p.sendAndPush rs (p.loopState rs n k)).nextExpectedFrame
          ≠ (p.loopState rs n k).nextExpectedFrame
      · rw [if_pos htog] at this
        rw [if_pos ⟨hlt, htog⟩]
        exact this
      · rw [if_neg htog] at this
        rw [if_neg (fun h => htog h.2)]
        exact this
    · rw [if_neg hlt, if_neg (fun h => hlt h.1), Nat.add_zero]
      exact ih

/-- The bounds that follow from the safety invariant. -/
theorem safeInv_bounds (s : SimState) (d : Nat) (h : SafeInv s d) :
    s.successPacketsDone ≤ d ∧ d ≤ s.successPacketsDone + 1 ∧
      (d = s.successPacketsDone ↔ s.nextExpectedFrame = s.sn) := by
  obtain ⟨-, -, -, hd⟩ := h
  by_cases hc : s.nextExpectedFrame = s.sn
  · rw [if_pos hc] at hd
    exact ⟨by omega, by omega, fun _ => hc, fun _ => by omega⟩
  · rw [if_neg hc] at hd
    exact ⟨by omega, by omega, fun h => by omega, fun h => absurd h hc⟩

/-- C18: with `delivered` the number of times `send` has toggled `nextExpectedFrame`, in
every state reachable by `simulate` (at the main loop condition after `k` passes, and in
every state inside the pass that follows) the success count is at most `delivered`,
`delivered` is at most the success count plus one, and they are equal exactly when
`nextExpectedFrame = sn`. -/
theorem C18_protocol_safety (p : ABPSimulator) (rs : RandSource) (successPackets k : Nat)
    (hn : successPackets < 2 ^ 32) :
    ((p.loopState rs successPackets k).successPacketsDone ≤ p.delivered rs successPackets k ∧
      p.delivered rs successPackets k
        ≤ (p.loopState rs successPackets k).successPacketsDone + 1 ∧
      (p.delivered rs successPackets k = (p.loopState rs successPackets k).successPacketsDone
        ↔ (p.loopState rs successPackets k).nextExpectedFrame
          = (p.loopState rs successPackets k).sn)) ∧
    ((p.loopState rs successPackets k).successPacketsDone < successPackets →
      ∀ s ∈ p.roundTrace rs (p.loopState rs successPackets k),
        s.successPacketsDone ≤ p.delivered rs successPackets (k + 1) ∧
        p.delivered rs successPackets (k + 1) ≤ s.successPacketsDone + 1 ∧
        (p.delivered rs successPackets (k + 1) = s.successPacketsDone
          ↔ s.nextExpectedFrame = s.sn)) := by
  have hinv := safeInv_loopState p rs successPackets hn k
  refine ⟨safeInv_bounds _ _ hinv, ?_⟩
  intro hlt s hs
  have h1 := (safeInv_round p rs _ _ (by unfold UINT_MOD; omega) hinv).2 s hs
  rw [delivered_succ]
  by_cases htog : (p.sendAndPush rs (p.loopState rs successPackets k)).nextExpectedFrame
      ≠ (p.loopState rs successPackets k).nextExpectedFrame
  · rw [if_pos htog] at h1
    rw [if_pos ⟨hlt, htog⟩]
    exact safeInv_bounds _ _ h1
  · rw [if_neg htog] at h1
    rw [if_neg (fun h => htog h.2)]
    exact safeInv_bounds _ _ h1

theorem C18_protocol_safety_witness :
    (lateAckParams true).delivered rsTwoErrors 2 4 = 1 ∧
    ((lateAckParams true).loopState rsTwoErrors 2 4).successPacketsDone = 1 ∧
    ((lateAckParams true).loopState rsTwoErrors 2 4).successPacketsDone
      ≤ (lateAckParams true).delivered rsTwoErrors 2 4 :=
  ⟨by decide!, by decide!,
    (C18_protocol_safety (lateAckParams true) rsTwoErrors 2 4 (by decide)).1.1⟩

/-! ## Termination and the elapsed time -/

/-- C19 (failing run): for `overflowParams` (no bit errors, positive capacity,
non-negative propagation delay, `1000 * header / capacity + 2 * delay < timeout`) and
target 1, the main loop never leaves, whatever the draws and the fuel: the data frame
has `2 ^ 31` bits, the `int` constant `DATA_FRAME_LENGTH` is negative, the timeout delay
is negative and every pass ends by timeout. -/
theorem C19_overflow_run (rs : RandSource) (fuel : Nat) :
    (overflowParams.bitErrorRate = 0 ∧ 0 < overflowParams.channelCapacity ∧
      0 ≤ overflowParams.propagationDelay ∧
      1000 * (overflowParams.headerLength : ℚ) / overflowParams.channelCapacity
        + 2 * overflowParams.propagationDelay < overflowParams.timeoutTime) ∧
    overflowParams.timeoutDelay = -17929432 / 15625 ∧
    overflowParams.mainLoop rs 1 fuel initState = none := by
  have htd : overflowParams.timeoutDelay = -17929432 / 15625 := by decide!
  refine ⟨by decide!, htd, ?_⟩
  exact mainLoop_of_negative overflowParams rs 1 (le_refl _)
    (roundTrip_nonneg overflowParams (by decide!)) (by rw [htd]; norm_num) fuel initState
    (fun e he => absurd he (List.not_mem_nil e)) rfl

/-- C20 (failing run): for `zeroTripParams` (positive capacity, `header + packet > 0`,
propagation delay 0, timeout 1000 ms, no bit errors) and target 1, `simulate` terminates
after one pass with success count 1 and the elapsed time 0: the round trip delay is 0
because `dataFrameLength + ackFrameLength` wraps around to 0. For target 0 the loop body
never runs and the elapsed time is 0 as well. -/
theorem C20_wrap_run (rs : RandSource) (extra : Nat) :
    (0 < zeroTripParams.channelCapacity ∧
      0 < zeroTripParams.headerLength + zeroTripParams.packetLength ∧
      0 ≤ zeroTripParams.propagationDelay ∧ 0 ≤ zeroTripParams.timeoutTime) ∧
    (zeroTripParams.mainLoop rs 1 (1 + extra) initState).map
        (fun r => (r.1.successPacketsDone, r.1.senderCurrentTime, r.2)) = some (1, 0, 1) ∧
    (zeroTripParams.mainLoop rs 0 extra initState).map
        (fun r => (r.1.successPacketsDone, r.1.senderCurrentTime, r.2)) = some (0, 0, 0) := by
  have hrt : zeroTripParams.roundTrip = 0 := by decide!
  have hto : zeroTripParams.timeoutDelay = 1001 := by decide!
  have h := mainLoop_zeroErr zeroTripParams rs 1 extra rfl
    (by rw [hrt, hto]; norm_num) (by decide) 1 0 rfl
  rw [zeroErrState_zero] at h
  refine ⟨by decide!, ?_, ?_⟩
  · rw [h]
    simp only [Option.map_some', zeroErrState, hrt]
    norm_num
  · cases extra <;> simp [ABPSimulator.mainLoop, initState]

theorem posInv_sendAndPush (p : ABPSimulator) (rs : RandSource) (s : SimState)
    (hA : 0 ≤ p.roundTrip) (h : PosInv p s) : PosInv p (p.sendAndPush rs s) := by
  obtain ⟨h1, h2, h3, h4⟩ := h
  obtain ⟨-, -, hc, hd⟩ := sendAndPush_frame p rs s
  refine ⟨timeInv_sendAndPush p rs s hA h1, by rw [hc]; exact h2, ?_,
    by rw [hc, hd]; exact h4⟩
  rcases sendAndPush_queue p rs s with hq | ⟨e, het, hq⟩
  · rw [hq]; exact h3
  · rw [hq]
    intro x hx
    rcases List.mem_append.mp hx with hx | hx
    · exact h3 x hx
    · rw [List.mem_singleton] at hx
      rw [hx, het]
      linarith

theorem drainBody_queue_subset (p : ABPSimulator) (deadline : ℚ) (e : ACKEvent)
    (rest : List ACKEvent) (s : SimState) (hq : s.ackEvents = e :: rest) :
    ∀ x ∈ (p.drainBody deadline e rest s).1.ackEvents, x ∈ s.ackEvents := by
  intro x hx
  rw [drainBody_eq] at hx
  rw [hq]
  split_ifs at hx
  · rw [← hq]; exact hx
  · exact List.mem_cons_of_mem _ hx
  · exact List.mem_cons_of_mem _ hx
  · exact List.mem_cons_of_mem _ hx
  · exact List.mem_cons_of_mem _ hx

theorem posInv_drainBody (p : ABPSimulator) (deadline : ℚ) (e : ACKEvent)
    (rest : List ACKEvent) (s : SimState) (hq : s.ackEvents = e :: rest)
    (hd : s.senderCurrentTime ≤ deadline) (h : PosInv p s) :
    PosInv p (p.drainBody deadline e rest s).1 ∧
      (p.drainBody deadline e rest s).1.senderCurrentTime ≤ deadline := by
  obtain ⟨h1, h2, h3, h4⟩ := h
  obtain ⟨t1, t2, t3, -⟩ := timeInv_drainBody p deadline e rest s hq h1 hd
  refine ⟨⟨t1, le_trans h2 t3,
    fun x hx => h3 x (drainBody_queue_subset p deadline e rest s hq x hx), ?_⟩, t2⟩
  rcases drainBody_sender p deadline e rest s with ⟨-, -, c, -⟩ | ⟨-, -, -, ht, -⟩
  · rw [c]
    intro h5
    exact le_trans (h4 h5) t3
  · intro _
    rw [ht]
    exact h3 e (by rw [hq]; exact List.mem_cons_self _ _)

theorem posInv_drainLoop (p : ABPSimulator) (deadline : ℚ) (q : List ACKEvent) :
    ∀ s, s.ackEvents = q → s.senderCurrentTime ≤ deadline → PosInv p s →
      PosInv p (p.drainLoop deadline q s) := by
  induction q with
  | nil => intro s _ _ h; exact h
  | cons e rest ih =>
    intro s hq hd h
    obtain ⟨hb, hb2⟩ := posInv_drainBody p deadline e rest s hq hd h
    have hcont := drainBody_continue p deadline e rest s
    unfold ABPSimulator.drainLoop
    split
    · rename_i s2 heq
      rw [heq] at hb
      exact hb
    · rename_i s2 heq
      rw [heq] at hb hb2 hcont
      exact ih s2 (hcont rfl).1 hb2 hb

theorem posInv_round (p : ABPSimulator) (rs : RandSource) (s : SimState)
    (hA : 0 ≤ p.roundTrip) (hT : 0 ≤ p.timeoutDelay) (h : PosInv p s) :
    PosInv p (p.round rs s) := by
  have h1 := posInv_sendAndPush p rs s hA h
  obtain ⟨-, -, hc, -⟩ := sendAndPush_frame p rs s
  have hd : (p.sendAndPush rs s).senderCurrentTime ≤ p.timeoutEventTime s := by
    rw [hc]
    unfold ABPSimulator.timeoutEventTime
    unfold ABPSimulator.timeoutDelay at hT
    linarith
  unfold ABPSimulator.round ABPSimulator.race
  split_ifs with hto
  · obtain ⟨k1, k2, k3, k4⟩ := h1
    refine ⟨timeInv_timeout p _ _ k1 hd hto, le_trans k2 hd, k3, ?_⟩
    intro h5
    exact le_trans (k4 h5) hd
  · exact posInv_drainLoop p _ _ _ rfl hd h1

/-- With non-negative timeout delay and round trip delay, when the main loop is left
for a target of at least 1 the elapsed time is at least one round trip delay. -/
theorem mainLoop_elapsed (p : ABPSimulator) (rs : RandSource) (n : Nat) (hn : 1 ≤ n)
    (hA : 0 ≤ p.roundTrip) (hT : 0 ≤ p.timeoutDelay) :
    ∀ fuel s r, PosInv p s → p.mainLoop rs n fuel s = some r →
      p.roundTrip ≤ r.1.senderCurrentTime := by
  intro fuel
  induction fuel with
  | zero =>
    intro s r h hr
    unfold ABPSimulator.mainLoop at hr
    split_ifs at hr with hlt
    simp only [Option.some.injEq] at hr
    rw [← hr]
    exact h.2.2.2 (by omega)
  | succ fuel ih =>
    intro s r h hr
    unfold ABPSimulator.mainLoop at hr
    split_ifs at hr with hlt
    · rw [Option.map_eq_some'] at hr
      obtain ⟨r1, h1, h2⟩ := hr
      rw [← h2]
      exact ih (p.round rs s) r1 (posInv_round p rs s hA hT h) h1
    · simp only [Option.some.injEq] at hr
      rw [← hr]
      exact h.2.2.2 (by omega)

/-- Without wrap-around of the lengths, with positive capacity, a frame of at least one
bit and non-negative propagation delay and timeout: if `simulate` terminates for a target
of at least 1, the elapsed time used as divisor is positive. -/
theorem elapsed_pos (p : ABPSimulator) (rs : RandSource) (n fuel : Nat)
    (r : SimState × Nat) (hC : 0 < p.channelCapacity)
    (hlen : 0 < p.headerLength + p.packetLength)
    (hD : p.headerLength + p.packetLength < 2 ^ 31)
    (hA : 2 * p.headerLength + p.packetLength < 2 ^ 32)
    (hτ : 0 ≤ p.propagationDelay) (hΔ : 0 ≤ p.timeoutTime) (hn : 1 ≤ n)
    (h : p.mainLoop rs n fuel initState = some r) :
    0 < r.1.senderCurrentTime := by
  have hpos : 0 < p.roundTrip := by
    rw [roundTrip_eq p hA]
    have hc : (0 : ℚ) < p.channelCapacity := by exact_mod_cast hC
    have h1 : (0 : ℚ) < (p.headerLength : ℚ) + p.packetLength := by exact_mod_cast hlen
    have h2 : (0 : ℚ) ≤ (p.headerLength : ℚ) := Nat.cast_nonneg _
    have h3 : 0 < 1000 * ((p.headerLength : ℚ) + p.packetLength) / p.channelCapacity :=
      div_pos (by linarith) hc
    have h4 : 0 ≤ 1000 * (p.headerLength : ℚ) / p.channelCapacity :=
      div_nonneg (by linarith) (le_of_lt hc)
    linarith
  have hT : 0 ≤ p.timeoutDelay :=
    timeoutDelay_nonneg p hΔ (by rw [Nat.mod_eq_of_lt (by unfold UINT_MOD; omega)]; exact hD)
  have hinit : PosInv p initState := by
    refine ⟨timeInv_init p, le_refl _, fun e he => ?_, fun h1 => ?_⟩
    · simp [initState] at he
    · simp [initState] at h1
  exact lt_of_lt_of_le hpos
    (mainLoop_elapsed p rs n hn (le_of_lt hpos) hT fuel initState r hinit h)

/-! ## Retransmitted copies of an accepted frame -/

/-- C9 (amended): take a pass of the main loop of a run of `simulate`, run under the loop
condition from a state in which the receiver's `nextExpectedFrame` differs from `sn` (the
data frame it sends, clean or not, is a copy of a frame the receiver has accepted). The
receiver does not accept the copy: `nextExpectedFrame` and the number `delivered` of
accepted frames are the same after the pass as before it. Before the pass the accepted
frame has not been counted (`delivered` is the success count plus one). The pass counts it
at most once and never counts the copy as a further frame: either no event removed from
the queue passes the test `rn == nextExpectedAck` and not `error`, and then the success
count and `sn` are unchanged; or the last removed event passes it (the earlier ones fail
it), its `rn` is the receiver's `nextExpectedFrame`, the success count is one more and is
now `delivered`, `sn` is toggled and equals `nextExpectedFrame` after the pass (so the
next pass sends a new frame). In both cases the success count after the pass is at most
`delivered`. -/
theorem C9_duplicate_frame (p : ABPSimulator) (rs : RandSource) (successPackets k : Nat)
    (hn : successPackets < 2 ^ 32)
    (hrun : (p.loopState rs successPackets k).successPacketsDone < successPackets)
    (hdup : (p.loopState rs successPackets k).nextExpectedFrame
      ≠ (p.loopState rs successPackets k).sn) :
    (p.round rs (p.loopState rs successPackets k)).nextExpectedFrame
      = (p.loopState rs successPackets k).nextExpectedFrame ∧
    p.delivered rs successPackets (k + 1) = p.delivered rs successPackets k ∧
    p.delivered rs successPackets k
      = (p.loopState rs successPackets k).successPacketsDone + 1 ∧
    (p.round rs (p.loopState rs successPackets k)).successPacketsDone
      ≤ p.delivered rs successPackets k ∧
    (((∀ x ∈ p.roundDequeued rs (p.loopState rs successPackets k),
          ¬ (x.rn = (p.loopState rs successPackets k).nextExpectedAck ∧ x.error = false)) ∧
        (p.round rs (p.loopState rs successPackets k)).successPacketsDone
          = (p.loopState rs successPackets k).successPacketsDone ∧
        (p.round rs (p.loopState rs successPackets k)).sn
          = (p.loopState rs successPackets k).sn) ∨
      (∃ pre e, p.roundDequeued rs (p.loopState rs successPackets k) = pre ++ [e] ∧
        (∀ x ∈ pre,
          ¬ (x.rn = (p.loopState rs successPackets k).nextExpectedAck ∧ x.error = false)) ∧
        (e.rn = (p.loopState rs successPackets k).nextExpectedAck ∧ e.error = false) ∧
        e.rn = (p.loopState rs successPackets k).nextExpectedFrame ∧
        (p.round rs (p.loopState rs successPackets k)).successPacketsDone
          = (p.loopState rs successPackets k).successPacketsDone + 1 ∧
        (p.round rs (p.loopState rs successPackets k)).successPacketsDone
          = p.delivered rs successPackets k ∧
        (p.round rs (p.loopState rs successPackets k)).sn
          = Nat.xor (p.loopState rs successPackets k).sn 1 ∧
        (p.round rs (p.loopState rs successPackets k)).nextExpectedFrame
          = (p.round rs (p.loopState rs successPackets k)).sn)) := by
  have hU : successPackets < UINT_MOD := by unfold UINT_MOD; omega
  have hinv := safeInv_loopState p rs successPackets hU k
  have hds := delivered_succ p rs successPackets k
  generalize p.loopState rs successPackets k = s at hrun hdup hinv hds ⊢
  obtain ⟨f1, f2, -, f4⟩ := sendAndPush_frame p rs s
  have hkeep : (p.sendAndPush rs s).nextExpectedFrame = s.nextExpectedFrame := by
    rw [sendAndPush_receiver, if_neg (fun h => hdup h.2)]
  have hnef : (p.round rs s).nextExpectedFrame = s.nextExpectedFrame := by
    rw [(round_sender p rs s).1, send_receiver, if_neg (fun h => hdup h.2)]
  have hd : p.delivered rs successPackets k = s.successPacketsDone + 1 := by
    have := hinv.2.2.2
    rw [if_neg hdup] at this
    exact this
  have hinv2 := (safeInv_round p rs s _ (by omega) hinv).1
  rw [if_neg (fun h => h hkeep), Nat.add_zero] at hinv2
  have hb := safeInv_bounds _ _ hinv2
  have hrn : s.nextExpectedAck = s.nextExpectedFrame := by
    obtain ⟨⟨h1, h2, h3⟩, h4, -, -⟩ := hinv
    rcases h1 with h1 | h1 <;> rcases h4 with h4 | h4 <;> omega
  have hacc : ∀ x : ACKEvent, accepts x (p.sendAndPush rs s) = true
      ↔ (x.rn = s.nextExpectedAck ∧ x.error = false) := by
    intro x
    unfold accepts
    rw [f2]
    simp
  have hrej : ∀ x : ACKEvent, accepts x (p.sendAndPush rs s) = false
      → ¬ (x.rn = s.nextExpectedAck ∧ x.error = false) := by
    intro x hx h
    rw [(hacc x).mpr h] at hx
    simp at hx
  refine ⟨hnef, ?_, hd, hb.1, ?_⟩
  · rw [hds, if_neg (fun h => h.2 hkeep), Nat.add_zero]
  · unfold ABPSimulator.roundDequeued
    have hround : p.round rs s = p.race (p.timeoutEventTime s) (p.sendAndPush rs s) := rfl
    by_cases hto : timesOut (p.timeoutEventTime s) (p.sendAndPush rs s) = true
    · rw [if_pos hto]
      left
      refine ⟨fun x hx => absurd hx (List.not_mem_nil x), ?_, ?_⟩
      · rw [hround]; unfold ABPSimulator.race; rw [if_pos hto]; exact f4
      · rw [hround]; unfold ABPSimulator.race; rw [if_pos hto]; exact f1
    · rw [if_neg hto]
      have hr2 : p.round rs s = p.drainLoop (p.timeoutEventTime s)
          (p.sendAndPush rs s).ackEvents (p.sendAndPush rs s) := by
        rw [hround]; unfold ABPSimulator.race; rw [if_neg hto]
      obtain ⟨-, i2⟩ := drainLoop_accept_spec p (p.timeoutEventTime s)
        (p.sendAndPush rs s).ackEvents (p.sendAndPush rs s)
      rw [← hr2] at i2
      rcases i2 with ⟨j1, j2, -, j4⟩ | ⟨pre, e0, k1, k2, k3, -, k5, -, k7⟩
      · left
        exact ⟨fun x hx => hrej x (j1 x hx), by rw [j4, f4], by rw [j2, f1]⟩
      · right
        have hdone : (p.round rs s).successPacketsDone = s.successPacketsDone + 1 := by
          rw [k7, f4, Nat.mod_eq_of_lt (by omega)]
        have hdel : (p.round rs s).successPacketsDone = p.delivered rs successPackets k := by
          rw [hdone, hd]
        refine ⟨pre, e0, k1, fun x hx => hrej x (k2 x hx), (hacc e0).mp k3, ?_, hdone, hdel,
          by rw [k5, f1], hb.2.2.mp hdel.symm⟩
        rw [((hacc e0).mp k3).1, hrn]

theorem C9_duplicate_frame_witness :
    (shortTimeoutParams.round rsZero (shortTimeoutParams.loopState rsZero 1 1)).nextExpectedFrame
      = (shortTimeoutParams.loopState rsZero 1 1).nextExpectedFrame ∧
    shortTimeoutParams.delivered rsZero 1 2 = shortTimeoutParams.delivered rsZero 1 1 ∧
    shortTimeoutParams.delivered rsZero 1 1 = 1 ∧
    (shortTimeoutParams.round rsZero (shortTimeoutParams.loopState rsZero 1 1)).successPacketsDone
      = 1 :=
  have h := C9_duplicate_frame shortTimeoutParams rsZero 1 1 (by decide) (by decide!) (by decide!)
  ⟨h.1, h.2.1, by decide!, by decide!⟩

end ABP
